import Mathlib

/-!
Verification development for the diorama generation server
(`server/index.js`, current version: the second document in the file).

The server-side data model and operations relevant to the frozen claims are
embedded shallowly:

* `JsMap` models a JavaScript `Map` as an association list in insertion
  order (JS `Map` iterates keys in insertion order; `set` on an existing key
  updates the value in place, `delete` removes the unique entry).
* `SimpleCache` models the `SimpleCache` class (TTL + insertion-order
  eviction), `server/index.js` lines 1211-1242.
* `GenerationQueue` is modelled as a small-step event system over the queue
  state (lines 1253-1289).
* `sanitizeAddress` models the address sanitizer (lines 1575-1599).
* `getRandomFamousHomeFallback` and the `/api/generate-v2` handler are
  modelled as pure functions over an explicit environment describing the
  outcomes of external calls (provider fetches, vision, synthesis, the
  `Math.random()` draw, and the `launch-assets` file system).

Machine timestamps (`Date.now()`) are modelled as `Nat` milliseconds.
-/

namespace Diorama

/-! ## JavaScript Map model

An association list in insertion order.  All `SimpleCache` keys are strings,
but the map model is generic. -/

abbrev JsMap (α β : Type) := List (α × β)

/-- Keys of a map in insertion order. -/
def mapKeys (m : JsMap α β) : List α := m.map Prod.fst

/-- `Map.prototype.get`: the value stored under `k`, if any. -/
def mapLookup [DecidableEq α] (k : α) : JsMap α β → Option β
  | [] => none
  | (k₁, v) :: rest => if k₁ = k then some v else mapLookup k rest

/-- `Map.prototype.delete`: removes the entry under `k` (keys are unique in a
JS `Map`, so removing the first occurrence is exact). -/
def mapDelete [DecidableEq α] (k : α) : JsMap α β → JsMap α β
  | [] => []
  | (k₁, v) :: rest => if k₁ = k then rest else (k₁, v) :: mapDelete k rest

/-- `Map.prototype.set`: updates the value in place when `k` is present
(keeping its insertion position), otherwise appends a new entry. -/
def mapSet [DecidableEq α] (k : α) (v : β) : JsMap α β → JsMap α β
  | [] => [(k, v)]
  | (k₁, v₁) :: rest => if k₁ = k then (k₁, v) :: rest else (k₁, v₁) :: mapSet k v rest

/-- `map.keys().next().value`: the first-inserted key, when the map is
non-empty (`undefined` otherwise, modelled as `none`). -/
def firstKey : JsMap α β → Option α
  | [] => none
  | (k, _) :: _ => some k


/-! ## SimpleCache (`server/index.js` lines 1211-1242)

Cached values are strings (base64 imagery / identity text).  The entry
stores the value and the `Date.now()` timestamp taken inside `set`. -/

structure CacheEntry where
  value : String
  timestamp : Nat
deriving DecidableEq, Repr

structure SimpleCache where
  cache : JsMap String CacheEntry
  maxSize : Nat
  ttlMs : Nat
deriving DecidableEq, Repr

/-- The `SimpleCache` constructor: empty map, given capacity and TTL.  The
source defaults are `maxSize = 500`, `ttlMs = 30 * 60 * 1000`. -/
def SimpleCache.empty (maxSize ttlMs : Nat) : SimpleCache :=
  { cache := [], maxSize := maxSize, ttlMs := ttlMs }

/-- The eviction step at the top of `SimpleCache.set`: when
`cache.size >= maxSize`, delete the entry under `cache.keys().next().value`
(the first-inserted key; on an empty map that expression is `undefined` and
`delete(undefined)` is a no-op). -/
def evictIfFull (c : SimpleCache) : JsMap String CacheEntry :=
  if c.cache.length ≥ c.maxSize then
    match firstKey c.cache with
    | some fk => mapDelete fk c.cache
    | none => c.cache
  else c.cache

/-- `SimpleCache.set(key, value)` at time `now`: evicts the first-inserted
entry when at capacity, then stores the entry under `key`. -/
def SimpleCache.set (c : SimpleCache) (key value : String) (now : Nat) : SimpleCache :=
  { c with cache := mapSet key { value := value, timestamp := now } (evictIfFull c) }

/-- Well-formedness of a cache instance: unique keys (a JS `Map`) and
occupancy within capacity. -/
def CacheWF (c : SimpleCache) : Prop :=
  (mapKeys c.cache).Nodup ∧ c.cache.length ≤ c.maxSize

/-- `SimpleCache.get(key)` at time `now`: returns `null` on a miss; on a hit
whose age exceeds the TTL, deletes the entry and returns `null`; otherwise
returns the value.  The pair carries the possibly-mutated cache. -/
def SimpleCache.get (c : SimpleCache) (key : String) (now : Nat) :
    Option String × SimpleCache :=
  match mapLookup key c.cache with
  | none => (none, c)
  | some e =>
    if now - e.timestamp > c.ttlMs then
      (none, { c with cache := mapDelete key c.cache })
    else
      (some e.value, c)

/-- `SimpleCache.has(key)`: implemented in source as `this.get(key) !== null`,
so it shares the lazy-expiry mutation of `get`. -/
def SimpleCache.has (c : SimpleCache) (key : String) (now : Nat) :
    Bool × SimpleCache :=
  let r := c.get key now
  (r.1.isSome, r.2)

/-- One client operation against a cache instance. -/
inductive CacheOp where
  | setOp (key value : String) (now : Nat)
  | getOp (key : String) (now : Nat)
  | hasOp (key : String) (now : Nat)
deriving DecidableEq

def applyCacheOp (c : SimpleCache) : CacheOp → SimpleCache
  | .setOp k v now => c.set k v now
  | .getOp k now => (c.get k now).2
  | .hasOp k now => (c.has k now).2

/-- The cache state after a sequence of operations on a fresh instance. -/
def runCacheOps (maxSize ttlMs : Nat) (ops : List CacheOp) : SimpleCache :=
  ops.foldl applyCacheOp (SimpleCache.empty maxSize ttlMs)

/-- `set` applied to a list of key/value pairs in order (all at time `now`). -/
def SimpleCache.setAll (c : SimpleCache) (kvs : List (String × String)) (now : Nat) :
    SimpleCache :=
  kvs.foldl (fun acc kv => acc.set kv.1 kv.2 now) c

/-! ## GenerationQueue (`server/index.js` lines 1253-1289)

The queue is single-threaded: `add` pushes and synchronously calls
`process()`; `process()` starts at most one task per call (guarded by
`running < maxConcurrent`); when a task settles, its `finally` block
decrements `running` and calls `process()` again.  All of these segments are
synchronous and non-yielding, so the system is modelled as a sequence of two
atomic events — `add` and `finish` — each of which ends with exactly one
`process()` step.  A task is identified by an `id` and carries whether its
promise work rejects (`fails`); the settlement record pairs the task with
the outcome delivered to its caller (`true` = rejected). -/

structure QTask where
  id : Nat
  fails : Bool
deriving DecidableEq, Repr

structure QueueState where
  maxConcurrent : Nat
  /-- `this.queue`: tasks pushed but not yet started, FIFO. -/
  pending : List QTask
  /-- tasks started and not yet settled; `this.running` is its length. -/
  runningTasks : List QTask
  /-- settlement records, in settlement order: task and whether it rejected. -/
  settled : List (QTask × Bool)
deriving DecidableEq, Repr

/-- The `GenerationQueue` constructor (source default `maxConcurrent = 3`;
the process-wide instance uses `3`). -/
def QueueState.init (maxConcurrent : Nat) : QueueState :=
  { maxConcurrent := maxConcurrent, pending := [], runningTasks := [], settled := [] }

/-- The `this.running` counter. -/
def QueueState.running (s : QueueState) : Nat := s.runningTasks.length

/-- `getStatus()`: `{running, queued}`. -/
def QueueState.getStatus (s : QueueState) : Nat × Nat :=
  (s.running, s.pending.length)

/-- One synchronous call of `process()`: returns unless
`running < maxConcurrent` and the queue is non-empty, otherwise shifts the
head of the queue, increments `running` and begins executing the task. -/
def processStep (s : QueueState) : QueueState :=
  if s.running ≥ s.maxConcurrent then s
  else
    match s.pending with
    | [] => s
    | t :: rest => { s with pending := rest, runningTasks := s.runningTasks ++ [t] }

/-- `add(task)`: push the task, then `process()`. -/
def addTask (s : QueueState) (t : QTask) : QueueState :=
  processStep { s with pending := s.pending ++ [t] }

/-- An in-flight task settles: its `try`/`catch` resolves or rejects the
caller's promise with the task's own outcome, then the `finally` block
decrements `running` and calls `process()`.  `i` selects which of the
in-flight tasks settles (completion may happen out of submission order);
an out-of-range `i` is a no-op. -/
def finishTask (s : QueueState) (i : Nat) : QueueState :=
  if h : i < s.runningTasks.length then
    let t := s.runningTasks.get ⟨i, h⟩
    processStep
      { s with
        runningTasks := s.runningTasks.eraseIdx i,
        settled := s.settled ++ [(t, t.fails)] }
  else s

/-- Well-formedness of a queue state, maintained across events: the
`running` counter never exceeds `maxConcurrent`, and whenever tasks are
waiting in the queue all concurrency slots are occupied (each `add` and
each settlement immediately calls `process()`). -/
def QueueWF (s : QueueState) : Prop :=
  s.running ≤ s.maxConcurrent ∧ (s.pending ≠ [] → s.running = s.maxConcurrent)

/-- The multiset of all tasks the state accounts for: waiting, in flight,
or settled. -/
def tasksOf (s : QueueState) : Multiset QTask :=
  ↑s.pending + ↑s.runningTasks + ↑(s.settled.map Prod.fst)

/-- Tasks not yet settled. -/
def load (s : QueueState) : Nat :=
  s.pending.length + s.runningTasks.length

/-- Every settlement delivered a task's own outcome: resolved if the task's
work succeeded, rejected (with the task's own error) if it failed. -/
def settledRespects (s : QueueState) : Prop :=
  ∀ p ∈ s.settled, p.2 = p.1.fails

/-- The observable events of the queue. -/
inductive QEvent where
  | add (t : QTask)
  | finish (i : Nat)
deriving DecidableEq

def applyQEvent (s : QueueState) : QEvent → QueueState
  | .add t => addTask s t
  | .finish i => finishTask s i

/-- The queue state after an arbitrary interleaving of `add` and settle
events against a fresh queue. -/
def runQEvents (maxConcurrent : Nat) (evs : List QEvent) : QueueState :=
  evs.foldl applyQEvent (QueueState.init maxConcurrent)

/-- Submit a batch of tasks in order. -/
def addAll (s : QueueState) (ts : List QTask) : QueueState :=
  ts.foldl addTask s

/-- Run the queue to completion: as long as some task is in flight, settle
the one picked by the (arbitrary) schedule, consuming one unit of fuel per
settlement. -/
def drainQueue (sched : Nat → Nat) : Nat → QueueState → QueueState
  | 0, s => s
  | fuel + 1, s =>
    if s.runningTasks = [] then s
    else
      drainQueue sched fuel
        (finishTask s (sched fuel % s.runningTasks.length))

/-! ## Address sanitizer (`server/index.js` lines 1575-1599)

Strings are modelled through their character lists (`String.data`); the
string-level `sanitizeAddress` wraps the list-level function. -/

/-- JS whitespace: the characters removed by `String.prototype.trim` and
matched by `\s` (space, tab, LF, VT, FF, CR, NBSP; the remaining Unicode
space separators are omitted from the model's alphabet). -/
def jsIsSpace (c : Char) : Bool :=
  c = ' ' || c = '\t' || c = '\n' || c = '\x0b' || c = '\x0c' || c = '\r' ||
    c = '\u00A0'

/-- `trimStart`: drop leading whitespace. -/
def trimStartL (l : List Char) : List Char := l.dropWhile jsIsSpace

/-- `trimEnd`: drop trailing whitespace. -/
def trimEndL (l : List Char) : List Char :=
  (l.reverse.dropWhile jsIsSpace).reverse

/-- `String.prototype.trim`. -/
def jsTrimL (l : List Char) : List Char := trimEndL (trimStartL l)

/-- `.slice(0, n)` on a string. -/
def jsSliceL (n : Nat) (l : List Char) : List Char := l.take n

/-- The regex class `\p{L}` restricted to ASCII letters: the model's
alphabet covers the Latin subset; accented letters accepted by the source
regex lie outside the modelled alphabet and none of the claims depend on
them. -/
def isUnicodeLetter (c : Char) : Bool := c.isAlpha

/-- One character of the class `[\p{L}0-9\s,.\-#'/&()]`. -/
def isAddressChar (c : Char) : Bool :=
  isUnicodeLetter c || c.isDigit || jsIsSpace c ||
    c = ',' || c = '.' || c = '-' || c = '#' || c = '\'' || c = '/' ||
    c = '&' || c = '(' || c = ')'

/-- `/^[\p{L}0-9\s,.\-#'/&()]+$/u.test(s)`: non-empty and every character in
the class. -/
def addressCharsOK (l : List Char) : Bool :=
  !l.isEmpty && l.all isAddressChar

/-- `String.prototype.toUpperCase` (ASCII). -/
def jsToUpper (c : Char) : Char := c.toUpper

/-- Word characters for the regex `\b` boundary: `[A-Za-z0-9_]`. -/
def isWordChar (c : Char) : Bool := c.isAlpha || c.isDigit || c = '_'

def isUpperAZ (c : Char) : Bool := 'A' ≤ c && c ≤ 'Z'

/-- Does `l` start with `pat`? -/
def startsWithL : List Char → List Char → Bool
  | [], _ => true
  | _ :: _, [] => false
  | p :: ps, c :: cs => p = c && startsWithL ps cs

/-- `String.prototype.includes(pat)`: `pat` occurs contiguously in `l`. -/
def containsSub : List Char → List Char → Bool
  | [], pat => pat.isEmpty
  | c :: rest, pat => startsWithL pat (c :: rest) || containsSub rest pat

/-- Consume exactly `n` decimal digits. -/
def digitsN : Nat → List Char → Option (List Char)
  | 0, l => some l
  | _ + 1, [] => none
  | n + 1, c :: l => if c.isDigit then digitsN n l else none

/-- A `\b` boundary coming after a word character: end of input or a
non-word character next. -/
def nonWordNext : List Char → Bool
  | [] => true
  | c :: _ => !isWordChar c

/-- The `\b` boundary before a match starting with a word character: start
of input or a non-word character just before. -/
def boundaryBefore : Option Char → Bool
  | none => true
  | some p => !isWordChar p

/-- Match `\d{5}(-\d{4})?\b` at the current position (with the regex
backtracking on the optional group). -/
def zipTail (l : List Char) : Bool :=
  match digitsN 5 l with
  | none => false
  | some r =>
    match r with
    | '-' :: r₂ =>
      (match digitsN 4 r₂ with
       | some r₃ => nonWordNext r₃
       | none => false) || nonWordNext r
    | _ => nonWordNext r

/-- Match `[A-Z]{2}\s+\d{5}(-\d{4})?\b` at the current position. -/
def stateZipAt : List Char → Bool
  | a :: b :: c :: r =>
    isUpperAZ a && isUpperAZ b && jsIsSpace c && zipTail (r.dropWhile jsIsSpace)
  | _ => false

/-- Scan for `/\b[A-Z]{2}\s+\d{5}(-\d{4})?\b/`: try every position whose
preceding character is a word boundary. -/
def scanStateZip : Option Char → List Char → Bool
  | _, [] => false
  | prev, c :: l =>
    (boundaryBefore prev && stateZipAt (c :: l)) || scanStateZip (some c) l

/-- `/\b[A-Z]{2}\s+\d{5}(-\d{4})?\b/.test(s)` (the US state-plus-ZIP
pattern, applied to the upper-cased address). -/
def testStateZip (l : List Char) : Bool := scanStateZip none l

/-- Match `\d{2}-\d{3}\b` at the current position. -/
def polishZipAt (l : List Char) : Bool :=
  match digitsN 2 l with
  | none => false
  | some r =>
    match r with
    | '-' :: r₂ =>
      match digitsN 3 r₂ with
      | some r₃ => nonWordNext r₃
      | none => false
    | _ => false

/-- Scan for `/\b\d{2}-\d{3}\b/` (the Polish postal-code pattern, applied to
the sanitized address as-is). -/
def scanPolishZip : Option Char → List Char → Bool
  | _, [] => false
  | prev, c :: l =>
    (boundaryBefore prev && polishZipAt (c :: l)) || scanPolishZip (some c) l

def testPolishZip (l : List Char) : Bool := scanPolishZip none l

/-- The `isUS` test: `upperAddress.includes('USA') ||
upperAddress.includes('UNITED STATES') || usZipRegex.test(upperAddress)`,
applied to the sanitized address. -/
def usCheck (sanitized : List Char) : Bool :=
  containsSub (sanitized.map jsToUpper) ("USA".data) ||
    containsSub (sanitized.map jsToUpper) ("UNITED STATES".data) ||
    testStateZip (sanitized.map jsToUpper)

/-- The `isPoland` test: `upperAddress.includes('POLAND') ||
upperAddress.includes('POLSKA') || polishZipRegex.test(sanitized)`. -/
def polandCheck (sanitized : List Char) : Bool :=
  containsSub (sanitized.map jsToUpper) ("POLAND".data) ||
    containsSub (sanitized.map jsToUpper) ("POLSKA".data) ||
    testPolishZip sanitized

/-- `sanitizeAddress` over character lists: reject falsy input (the empty
string; non-strings are excluded by the type), trim and truncate to 200
characters, require the address character class, then require the US or
Poland recognizer; return the sanitized characters. -/
def sanitizeAddressL (l : List Char) : Option (List Char) :=
  if l.isEmpty then none
  else
    let sanitized := jsSliceL 200 (jsTrimL l)
    if addressCharsOK sanitized then
      if usCheck sanitized || polandCheck sanitized then some sanitized
      else none
    else none

/-- `sanitizeAddress(raw: string) → string | null`. -/
def sanitizeAddress (s : String) : Option String :=
  (sanitizeAddressL s.data).map List.asString

/-- The concrete input refuting idempotence of the sanitizer: 201
characters, trimmed, whose 200-character truncation ends in a space. -/
def cexAddrL : List Char :=
  "USA".data ++ List.replicate 196 'a' ++ " b".data

/-- `String.prototype.toLowerCase` (ASCII). -/
def jsToLower (c : Char) : Char := c.toLower

/-- String-level `.trim()`. -/
def jsTrimS (s : String) : String := List.asString (jsTrimL s.data)

/-- String-level `.toLowerCase()`. -/
def toLowerS (s : String) : String := List.asString (s.data.map jsToLower)

/-- The cache key of an address: `sanitizedAddress.toLowerCase().trim()`
(line 2372). -/
def cacheKeyOf (sanitizedAddress : String) : String :=
  jsTrimS (toLowerS sanitizedAddress)

/-! ## Style allowlist (`server/index.js` lines 1323-1572)

The registry entries carry an `id`, a display `name`, a `useReference` flag
and a `prompt` template.  The long prompt text bodies are pure data with no
control-flow effect on any claim and are not modelled; each entry is
embedded as its key and `useReference` flag. -/

def ALLOWED_STYLES : List (String × Bool) := [
  ("diorama", true), ("simcity", true), ("lego", true), ("bauhaus", false),
  ("figurine", true), ("wesanderson", false), ("animalcrossing", true),
  ("ghibli", true), ("bobross", true), ("kinkade", true), ("ukiyoe", false),
  ("travelposter", true), ("richardscarry", true), ("lofi", true),
  ("cottagecore", true), ("hologram", true), ("eightbit", true),
  ("coloringsheet", true), ("crayon", true), ("openarmy", true)]

/-- `Object.keys(ALLOWED_STYLES)`. -/
def styleKeys : List String := ALLOWED_STYLES.map Prod.fst

/-- `isValidStyleId(styleId)` (lines 1570-1572): truthy (non-empty) string
that is a key of the allowlist. -/
def isValidStyleId (styleId : String) : Bool :=
  styleId != "" && ALLOWED_STYLES.any fun p => p.1 == styleId

/-- The `useReference` flag of a style. -/
def lookupUseReference (styleId : String) : Option Bool :=
  (ALLOWED_STYLES.find? fun p => p.1 == styleId).map Prod.snd

/-! ## Famous-homes fallback (`server/index.js` lines 1090-1124) -/

structure FamousHome where
  id : String
  name : String
  location : String
deriving DecidableEq, Repr

def FAMOUS_HOMES_FALLBACK : List FamousHome := [
  ⟨"home-alone", "Home Alone House", "Winnetka, IL"⟩,
  ⟨"fresh-prince", "Fresh Prince Mansion", "Los Angeles, CA"⟩,
  ⟨"breaking-bad", "Breaking Bad House", "Albuquerque, NM"⟩,
  ⟨"christmas-story", "A Christmas Story House", "Cleveland, OH"⟩,
  ⟨"ferris-bueller", "Ferris Bueller Glass House", "Highland Park, IL"⟩,
  ⟨"eames-house", "Eames House", "Pacific Palisades, CA"⟩,
  ⟨"stahl-house", "Stahl House", "Los Angeles, CA"⟩]

/-- `path.join(process.cwd(), 'launch-assets', filename)`, with the process
working directory elided (constant across a run). -/
def assetPath (filename : String) : String := "launch-assets/" ++ filename

structure FallbackResult where
  home : FamousHome
  imagePath : String
  style : String
deriving DecidableEq, Repr

/-- `getRandomFamousHomeFallback(styleId)`: `Math.floor(Math.random() *
FAMOUS_HOMES_FALLBACK.length)` is the draw `r`; `fs.existsSync` is the
predicate `fsExists`.  When the drawn home lacks an image in the requested
style, fall back to its `diorama` image; when that is also missing, return
`null`. -/
def getRandomFamousHomeFallback (fsExists : String → Bool) (r : Fin 7)
    (styleId : String) : Option FallbackResult :=
  let home := FAMOUS_HOMES_FALLBACK.get ⟨r.1, r.isLt⟩
  let filename := home.id ++ "-" ++ styleId ++ ".png"
  let filepath := assetPath filename
  if !fsExists filepath then
    let dioramaPath := assetPath (home.id ++ "-diorama.png")
    if fsExists dioramaPath then some ⟨home, dioramaPath, "diorama"⟩
    else none
  else some ⟨home, filepath, styleId⟩

/-! ## The `/api/generate-v2` handler (`server/index.js` lines 2316-2687)

The handler is embedded as a pure function over an environment describing
the outcomes of all external interactions of one request.  `Except Unit`
outcomes model provider calls whose promise may reject (the rejection is
caught by the top-level `catch`, which logs a failed generation and
responds 500).  The `[LOCATION]` prompt substitution (lines 2340-2369) is
pure string templating with no control-flow effect and is not modelled.
The synthesis closure runs through the `GenerationQueue` (whose scheduling
semantics is verified separately); for the response value it is modelled as
direct execution, with its two model attempts as explicit effects. -/

/-- Outcome of one `generateContent` synthesis attempt: a response part
with inline image data (and its possibly-absent mime type), a response
without any image part, or a thrown error. -/
inductive SynthOutcome where
  | image (base64 : String) (mimeType : Option String)
  | noImage
  | raiseErr
deriving DecidableEq, Repr

structure GenImage where
  base64 : String
  mimeType : String
deriving DecidableEq, Repr

structure V2Env where
  /-- `GOOGLE_MAPS_API_KEY` configured. -/
  hasMapsKey : Bool
  /-- `GOOGLE_AI_API_KEY` configured (`genAI` non-null exactly then). -/
  hasAIKey : Bool
  /-- Street View metadata call: thrown error, or the `status` field. -/
  metadata : Except Unit String
  /-- Street image fetch: thrown error, or `none` when `!r.ok`, else the
  base64 body. -/
  streetFetch : Except Unit (Option String)
  /-- Aerial image fetch, same shape. -/
  aerialFetch : Except Unit (Option String)
  /-- Identity extraction call: thrown error, or the returned text. -/
  vision : Except Unit String
  /-- First synthesis attempt (`gemini-2.5-flash-image`). -/
  synthPrimary : SynthOutcome
  /-- Fallback synthesis attempt (`gemini-2.5-flash`), consulted only when
  the first attempt throws. -/
  synthFallback : SynthOutcome
  /-- The `Math.random()` draw inside `getRandomFamousHomeFallback`. -/
  randomDraw : Fin 7
  /-- `fs.existsSync` over `launch-assets`. -/
  fsExists : String → Bool
  /-- `fs.readFileSync(path).toString('base64')`. -/
  fileContents : String → String
  /-- `Date.now()` for the cache operations of this request. -/
  now : Nat

/-- The externally observable calls of one request, in order. -/
inductive Effect where
  | metadataFetch
  | streetFetchEff
  | aerialFetchEff
  | visionCall
  | synthPrimaryCall
  | synthFallbackCall
  | logWrite (success : Bool)
deriving DecidableEq, Repr

/-- The JSON response: `status` plus the fields the handler can emit
(`none` = field absent from the body). -/
structure V2Response where
  status : Nat
  success : Bool := false
  errorMsg : Option String := none
  availableStyles : Option (List String) := none
  noStreetView : Option Bool := none
  blurredAddress : Option Bool := none
  message : Option String := none
  fallbackHome : Option FamousHome := none
  identity : Option String := none
  generatedImage : Option GenImage := none
  mock : Option Bool := none
  model : Option String := none
deriving DecidableEq, Repr

structure V2Out where
  resp : V2Response
  effects : List Effect
  streetCache : SimpleCache
  aerialCache : SimpleCache
  identityCache : SimpleCache
deriving DecidableEq, Repr

/-- The top-level `catch`: log a failed generation, respond
`500 {error: 'Generation failed'}`. -/
def v2Err500 (effs : List Effect) (sv av idc : SimpleCache) : V2Out :=
  { resp := { status := 500, errorMsg := some "Generation failed" },
    effects := effs ++ [Effect.logWrite false],
    streetCache := sv, aerialCache := av, identityCache := idc }

/-- The no-coverage terminal state (lines 2381-2405): serve a famous-home
substitute when the catalog lookup succeeds, else 400; `noStreetView:true`
either way.  (The source message text contains an apostrophe and is
abridged here; no claim depends on its wording.) -/
def coverageFallbackOut (env : V2Env) (effs : List Effect)
    (sv av idc : SimpleCache) (styleId : String) : V2Out :=
  match getRandomFamousHomeFallback env.fsExists env.randomDraw styleId with
  | some fb =>
    { resp := { status := 200, success := true, noStreetView := some true,
                message := some ("Google Street View is not available for this address. Showing the "
                  ++ fb.home.name ++ " in " ++ fb.home.location ++ " instead"),
                fallbackHome := some fb.home,
                generatedImage := some ⟨env.fileContents fb.imagePath, "image/png"⟩,
                model := some "fallback" },
      effects := effs, streetCache := sv, aerialCache := av, identityCache := idc }
  | none =>
    { resp := { status := 400,
                errorMsg := some "Google Street View is not available for this address.",
                noStreetView := some true },
      effects := effs, streetCache := sv, aerialCache := av, identityCache := idc }

/-- Step 3 (lines 2543-2654): the synthesis closure submitted to the
generation queue.  On a thrown primary attempt one fallback model attempt is
made inside the same queue slot; a fallback failure is swallowed.  Returns
`{generatedImage, mock}` plus the synthesis effects. -/
def runSynthesis (env : V2Env) : Option GenImage × Bool × List Effect :=
  if env.hasAIKey then
    match env.synthPrimary with
    | .image b mt => (some ⟨b, mt.getD "image/png"⟩, false, [Effect.synthPrimaryCall])
    | .noImage => (none, true, [Effect.synthPrimaryCall])
    | .raiseErr =>
      match env.synthFallback with
      | .image b mt =>
        (some ⟨b, mt.getD "image/png"⟩, false,
          [Effect.synthPrimaryCall, Effect.synthFallbackCall])
      | .noImage => (none, true, [Effect.synthPrimaryCall, Effect.synthFallbackCall])
      | .raiseErr => (none, true, [Effect.synthPrimaryCall, Effect.synthFallbackCall])
  else (none, true, [])

/-- Steps 1-3 after the coverage check passed (or was skipped for lack of a
Maps key): imagery fetch with caching, identity extraction with caching,
queued synthesis, success logging and the 200 response. -/
def v2AfterCoverage (env : V2Env) (effs : List Effect)
    (sv av idc : SimpleCache) (cacheKey : String) : V2Out :=
  let gstreet := sv.get cacheKey env.now
  let gaerial := av.get cacheKey env.now
  let street0 := gstreet.1
  let aerial0 := gaerial.1
  let sv₁ := gstreet.2
  let av₁ := gaerial.2
  -- Step 1: fetch what is missing (both fetches are started by Promise.all;
  -- a rejection of either reaches the top-level catch, but a fulfilled
  -- sibling has already populated its cache)
  let fetchEffs :=
    if env.hasMapsKey && (street0.isNone || aerial0.isNone) then
      (if street0.isNone then [Effect.streetFetchEff] else []) ++
        (if aerial0.isNone then [Effect.aerialFetchEff] else [])
    else []
  let doFetch := env.hasMapsKey && (street0.isNone || aerial0.isNone)
  let sv₂ :=
    if doFetch && street0.isNone then
      match env.streetFetch with
      | .ok (some b) => sv₁.set cacheKey b env.now
      | _ => sv₁
    else sv₁
  let av₂ :=
    if doFetch && aerial0.isNone then
      match env.aerialFetch with
      | .ok (some b) => av₁.set cacheKey b env.now
      | _ => av₁
    else av₁
  let streetThrew := doFetch && street0.isNone && (match env.streetFetch with
    | .error _ => true
    | .ok _ => false)
  let aerialThrew := doFetch && aerial0.isNone && (match env.aerialFetch with
    | .error _ => true
    | .ok _ => false)
  if streetThrew || aerialThrew then
    v2Err500 (effs ++ fetchEffs) sv₂ av₂ idc
  else
    let streetViewBase64 : Option String :=
      match street0 with
      | some b => some b
      | none =>
        if doFetch then
          match env.streetFetch with
          | .ok r => r
          | .error _ => none
        else none
    if streetViewBase64.isNone then
      { resp := { status := 400, errorMsg := some "Could not fetch street view image" },
        effects := effs ++ fetchEffs,
        streetCache := sv₂, aerialCache := av₂, identityCache := idc }
    else
      -- Step 2: identity extraction with caching
      let gid := idc.get cacheKey env.now
      let identity0 := gid.1
      let idc₁ := gid.2
      match identity0 with
      | some cachedIdentity =>
        let syn := runSynthesis env
        { resp := { status := 200, success := true, identity := some cachedIdentity,
                    generatedImage := syn.1, mock := some syn.2.1,
                    model := some "gemini-2.5-flash-image" },
          effects := effs ++ fetchEffs ++ syn.2.2 ++ [Effect.logWrite true],
          streetCache := sv₂, aerialCache := av₂, identityCache := idc₁ }
      | none =>
        if env.hasAIKey then
          match env.vision with
          | .error _ =>
            v2Err500 (effs ++ fetchEffs ++ [Effect.visionCall]) sv₂ av₂ idc₁
          | .ok txt =>
            let identity := jsTrimS txt
            let idc₂ := idc₁.set cacheKey identity env.now
            let syn := runSynthesis env
            { resp := { status := 200, success := true, identity := some identity,
                        generatedImage := syn.1, mock := some syn.2.1,
                        model := some "gemini-2.5-flash-image" },
              effects := effs ++ fetchEffs ++ [Effect.visionCall] ++ syn.2.2 ++
                [Effect.logWrite true],
              streetCache := sv₂, aerialCache := av₂, identityCache := idc₂ }
        else
          let identity := "A suburban home with typical American architecture."
          let syn := runSynthesis env
          { resp := { status := 200, success := true, identity := some identity,
                      generatedImage := syn.1, mock := some syn.2.1,
                      model := some "gemini-2.5-flash-image" },
            effects := effs ++ fetchEffs ++ syn.2.2 ++ [Effect.logWrite true],
            streetCache := sv₂, aerialCache := av₂, identityCache := idc₁ }

/-- Sanitization of the request body's `address` field: a missing or
non-string value is rejected exactly like a malformed one. -/
def sanitizeReq (address : Option String) : Option String :=
  match address with
  | none => none
  | some a => sanitizeAddress a

/-- `POST /api/generate-v2` (lines 2316-2687): validate the style against
the allowlist, sanitize the address, check Street View coverage, then run
the acquisition/extraction/synthesis pipeline.  `address` is `Option` since
the request body may omit it (a missing or non-string value is rejected by
the sanitizer exactly like a malformed one). -/
def handleGenerateV2 (env : V2Env) (sv av idc : SimpleCache)
    (address : Option String) (styleId : String) : V2Out :=
  if !isValidStyleId styleId then
    { resp := { status := 400, errorMsg := some "Invalid or missing styleId",
                availableStyles := some styleKeys },
      effects := [], streetCache := sv, aerialCache := av, identityCache := idc }
  else
    match sanitizeReq address with
    | none =>
      { resp := { status := 400, errorMsg := some "Invalid address format" },
        effects := [], streetCache := sv, aerialCache := av, identityCache := idc }
    | some sanitizedAddress =>
      let cacheKey := cacheKeyOf sanitizedAddress
      if env.hasMapsKey then
        match env.metadata with
        | .error _ => v2Err500 [Effect.metadataFetch] sv av idc
        | .ok status =>
          if status != "OK" then
            coverageFallbackOut env [Effect.metadataFetch] sv av idc styleId
          else
            v2AfterCoverage env [Effect.metadataFetch] sv av idc cacheKey
      else
        v2AfterCoverage env [] sv av idc cacheKey

/-! ## Privacy-blur detection (`server/index.js` lines 2124-2138)

This scan exists only in the legacy `POST /api/generate` pipeline (which is
not behind the strict generation limiter); `POST /api/generate-v2` never
performs it.  It is embedded here to relate extracted text to the source's
own indicator list. -/

def blurIndicators : List String :=
  ["impossible to determine", "extreme blurring", "extremely blurred",
   "cannot identify", "cannot be identified", "completely obscured",
   "not possible to identify", "impossible to extract",
   "impossible to provide", "privacy blur", "blurred out"]

/-- `blurIndicators.some(indicator => streetDescLower.includes(indicator))`
over the lower-cased description. -/
def isBlurredText (text : String) : Bool :=
  blurIndicators.any fun ind => containsSub (toLowerS text).data ind.data

/-! ### Concrete request environments for witnesses and counterexamples -/

/-- A fully-provisioned environment: both API keys, coverage available,
both images fetchable, identity text that contains privacy-blur indicator
phrases, and a first-try synthesis success.  The `launch-assets` directory
holds every file. -/
def demoEnv : V2Env :=
  { hasMapsKey := true, hasAIKey := true,
    metadata := .ok "OK",
    streetFetch := .ok (some "SV64"), aerialFetch := .ok (some "AV64"),
    vision := .ok "Due to privacy blur it is impossible to determine the structure.",
    synthPrimary := .image "IMG64" none, synthFallback := .noImage,
    randomDraw := ⟨0, by decide⟩,
    fsExists := fun _ => true, fileContents := fun _ => "FB64", now := 1000 }

/-- `demoEnv` with no Street View coverage for the address. -/
def demoEnvNoCoverage : V2Env := { demoEnv with metadata := .ok "ZERO_RESULTS" }

/-- No coverage and a different random draw. -/
def demoEnvNoCoverage₂ : V2Env :=
  { demoEnvNoCoverage with randomDraw := ⟨1, by decide⟩ }

/-- No coverage, the draw picks the second home (`fresh-prince`), and the
assets directory holds only the `home-alone` diorama image — so the catalog
does contain an entry for the requested style, but not for the drawn home. -/
def demoEnvSparseAssets : V2Env :=
  { demoEnvNoCoverage with
    randomDraw := ⟨1, by decide⟩,
    fsExists := fun p => p == "launch-assets/home-alone-diorama.png" }

/-- A valid US address for the demo requests. -/
def demoAddr : String := "10 Main St, Dallas TX 75001, USA"

/-- A fresh cache with the production parameters (capacity 200, 1 hour). -/
def demoCache : SimpleCache := SimpleCache.empty 200 3600000

/-! ## Lemmas and theorems -/

@[simp] theorem mapKeys_nil [DecidableEq α] : mapKeys ([] : JsMap α β) = [] := rfl

@[simp] theorem mapKeys_cons [DecidableEq α] (k : α) (v : β) (m : JsMap α β) :
    mapKeys ((k, v) :: m) = k :: mapKeys m := rfl

@[simp] theorem mapKeys_append [DecidableEq α] (m₁ m₂ : JsMap α β) :
    mapKeys (m₁ ++ m₂) = mapKeys m₁ ++ mapKeys m₂ := by
  simp [mapKeys]

section MapLemmas

variable [DecidableEq α] {m : JsMap α β} {k k₁ : α} {v : β}

theorem mapLookup_mapSet_self : mapLookup k (mapSet k v m) = some v := by
  induction m with
  | nil => simp [mapSet, mapLookup]
  | cons hd tl ih =>
    obtain ⟨k₂, v₂⟩ := hd
    by_cases h : k₂ = k <;> simp [mapSet, mapLookup, h, ih]

theorem mapLookup_eq_none_of_not_mem (h : k ∉ mapKeys m) : mapLookup k m = none := by
  induction m with
  | nil => simp [mapLookup]
  | cons hd tl ih =>
    obtain ⟨k₂, v₂⟩ := hd
    simp only [mapKeys_cons, List.mem_cons] at h
    push_neg at h
    have hne : ¬ k₂ = k := fun he => h.1 he.symm
    simp [mapLookup, hne, ih h.2]

theorem mapSet_of_not_mem (h : k ∉ mapKeys m) : mapSet k v m = m ++ [(k, v)] := by
  induction m with
  | nil => simp [mapSet]
  | cons hd tl ih =>
    obtain ⟨k₂, v₂⟩ := hd
    simp only [mapKeys_cons, List.mem_cons] at h
    push_neg at h
    have hne : ¬ k₂ = k := fun he => h.1 he.symm
    simp [mapSet, hne, ih h.2]

theorem mapKeys_mapSet_of_mem (h : k ∈ mapKeys m) :
    mapKeys (mapSet k v m) = mapKeys m := by
  induction m with
  | nil => simp at h
  | cons hd tl ih =>
    obtain ⟨k₂, v₂⟩ := hd
    by_cases hk : k₂ = k
    · simp [mapSet, hk]
    · simp only [mapKeys_cons, List.mem_cons] at h
      rcases h with h | h
      · exact absurd h.symm hk
      · simp [mapSet, hk, ih h]

theorem length_mapSet_le : (mapSet k v m).length ≤ m.length + 1 := by
  induction m with
  | nil => simp [mapSet]
  | cons hd tl ih =>
    obtain ⟨k₂, v₂⟩ := hd
    by_cases h : k₂ = k
    · simp [mapSet, h]
    · simp only [mapSet, if_neg h, List.length_cons]
      omega

theorem length_mapSet_of_mem (h : k ∈ mapKeys m) :
    (mapSet k v m).length = m.length := by
  have h₂ := congrArg List.length (mapKeys_mapSet_of_mem (v := v) h)
  simpa [mapKeys] using h₂

theorem mapDelete_sublist : (mapDelete k m).Sublist m := by
  induction m with
  | nil => simp [mapDelete]
  | cons hd tl ih =>
    obtain ⟨k₂, v₂⟩ := hd
    by_cases h : k₂ = k
    · simpa [mapDelete, h] using List.sublist_cons_self _ _
    · simpa [mapDelete, h] using List.Sublist.cons₂ (k₂, v₂) ih

theorem length_mapDelete_le : (mapDelete k m).length ≤ m.length :=
  mapDelete_sublist.length_le

theorem length_mapDelete_of_mem (h : k ∈ mapKeys m) :
    (mapDelete k m).length + 1 = m.length := by
  induction m with
  | nil => simp at h
  | cons hd tl ih =>
    obtain ⟨k₂, v₂⟩ := hd
    by_cases hk : k₂ = k
    · simp [mapDelete, hk]
    · simp only [mapKeys_cons, List.mem_cons] at h
      rcases h with h | h
      · exact absurd h.symm hk
      · simp [mapDelete, hk, ih h]

theorem mapKeys_nodup_mapDelete (h : (mapKeys m).Nodup) :
    (mapKeys (mapDelete k m)).Nodup :=
  ((mapDelete_sublist (k := k)).map Prod.fst).nodup h

theorem mapLookup_mapDelete_self (h : (mapKeys m).Nodup) :
    mapLookup k (mapDelete k m) = none := by
  induction m with
  | nil => simp [mapDelete, mapLookup]
  | cons hd tl ih =>
    obtain ⟨k₂, v₂⟩ := hd
    simp only [mapKeys_cons, List.nodup_cons] at h
    by_cases hk : k₂ = k
    · subst hk
      exact mapLookup_eq_none_of_not_mem (by simpa [mapDelete] using h.1)
    · simp [mapDelete, hk, mapLookup, ih h.2]

theorem mem_mapKeys_mapDelete_of_ne (h : (mapKeys m).Nodup) (hne : k₁ ≠ k)
    (hmem : k₁ ∈ mapKeys m) : k₁ ∈ mapKeys (mapDelete k m) := by
  induction m with
  | nil => simp at hmem
  | cons hd tl ih =>
    obtain ⟨k₂, v₂⟩ := hd
    simp only [mapKeys_cons, List.nodup_cons] at h
    simp only [mapKeys_cons, List.mem_cons] at hmem
    by_cases hk : k₂ = k
    · subst hk
      rcases hmem with rfl | hmem
      · exact absurd rfl hne
      · simpa [mapDelete] using hmem
    · rcases hmem with rfl | hmem
      · simp [mapDelete, hk]
      · simp only [mapDelete, if_neg hk, mapKeys_cons, List.mem_cons]
        exact Or.inr (ih h.2 hmem)

theorem not_mem_mapKeys_mapDelete (h : (mapKeys m).Nodup) :
    k ∉ mapKeys (mapDelete k m) := by
  induction m with
  | nil => simp [mapDelete]
  | cons hd tl ih =>
    obtain ⟨k₂, v₂⟩ := hd
    simp only [mapKeys_cons, List.nodup_cons] at h
    by_cases hk : k₂ = k
    · subst hk
      simpa [mapDelete] using h.1
    · simp only [mapDelete, if_neg hk, mapKeys_cons, List.mem_cons]
      push_neg
      exact ⟨fun hkk => hk hkk.symm, ih h.2⟩

theorem mem_mapKeys_mapSet_self : k ∈ mapKeys (mapSet k v m) := by
  induction m with
  | nil => simp [mapSet]
  | cons hd tl ih =>
    obtain ⟨k₂, v₂⟩ := hd
    by_cases h : k₂ = k
    · subst h
      simp [mapSet]
    · simp only [mapSet, if_neg h, mapKeys_cons, List.mem_cons]
      exact Or.inr ih

theorem mem_mapKeys_mapSet_of_mem (h : k₁ ∈ mapKeys m) :
    k₁ ∈ mapKeys (mapSet k v m) := by
  induction m with
  | nil => simp at h
  | cons hd tl ih =>
    obtain ⟨k₂, v₂⟩ := hd
    simp only [mapKeys_cons, List.mem_cons] at h
    by_cases hk : k₂ = k
    · rcases h with rfl | h
      · simp [mapSet, hk]
      · simp only [mapSet, if_pos hk, mapKeys_cons, List.mem_cons]
        exact Or.inr h
    · rcases h with rfl | h
      · simp [mapSet, hk]
      · simp only [mapSet, if_neg hk, mapKeys_cons, List.mem_cons]
        exact Or.inr (ih h)

theorem not_mem_mapKeys_mapSet_of_ne (hne : k₁ ≠ k) (h : k₁ ∉ mapKeys m) :
    k₁ ∉ mapKeys (mapSet k v m) := by
  induction m with
  | nil => simpa [mapSet] using hne
  | cons hd tl ih =>
    obtain ⟨k₂, v₂⟩ := hd
    simp only [mapKeys_cons, List.mem_cons] at h
    push_neg at h
    by_cases hk : k₂ = k
    · simp only [mapSet, if_pos hk, mapKeys_cons, List.mem_cons]
      push_neg
      exact ⟨h.1, h.2⟩
    · simp only [mapSet, if_neg hk, mapKeys_cons, List.mem_cons]
      push_neg
      exact ⟨h.1, ih h.2⟩

theorem mapKeys_nodup_mapSet (h : (mapKeys m).Nodup) :
    (mapKeys (mapSet k v m)).Nodup := by
  by_cases hk : k ∈ mapKeys m
  · rwa [mapKeys_mapSet_of_mem hk]
  · rw [mapSet_of_not_mem hk]
    simp only [mapKeys_append, mapKeys_cons, mapKeys_nil]
    rw [List.nodup_append]
    refine ⟨h, List.nodup_singleton k, ?_⟩
    intro a ha hb
    simp only [List.mem_singleton] at hb
    exact hk (hb ▸ ha)

end MapLemmas

/-! ### SimpleCache lemmas -/

theorem evictIfFull_of_lt {c : SimpleCache} (h : c.cache.length < c.maxSize) :
    evictIfFull c = c.cache := by
  unfold evictIfFull
  rw [if_neg (by omega)]

theorem evictIfFull_cons {c : SimpleCache} {k : String} {e : CacheEntry}
    {t : JsMap String CacheEntry} (hfull : c.cache.length ≥ c.maxSize)
    (hc : c.cache = (k, e) :: t) : evictIfFull c = t := by
  unfold evictIfFull
  rw [if_pos hfull, hc]
  simp [firstKey, mapDelete]

theorem evictIfFull_nodup {c : SimpleCache} (h : (mapKeys c.cache).Nodup) :
    (mapKeys (evictIfFull c)).Nodup := by
  unfold evictIfFull
  split
  · split
    · exact mapKeys_nodup_mapDelete h
    · exact h
  · exact h

theorem evictIfFull_length_le {c : SimpleCache} :
    (evictIfFull c).length ≤ c.cache.length := by
  unfold evictIfFull
  split
  · split
    · exact length_mapDelete_le
    · exact Nat.le_refl _
  · exact Nat.le_refl _

theorem cacheWF_set {c : SimpleCache} (hm : 1 ≤ c.maxSize) (h : CacheWF c)
    (k v : String) (now : Nat) : CacheWF (c.set k v now) := by
  obtain ⟨hnd, hlen⟩ := h
  refine ⟨mapKeys_nodup_mapSet (evictIfFull_nodup hnd), ?_⟩
  show (mapSet k _ (evictIfFull c)).length ≤ c.maxSize
  by_cases hfull : c.cache.length ≥ c.maxSize
  · have hm₂ : c.cache.length = c.maxSize := by omega
    obtain ⟨⟨k₀, e₀⟩, t, hc⟩ : ∃ p t, c.cache = p :: t := by
      cases hcc : c.cache with
      | nil => rw [hcc] at hm₂; simp at hm₂; omega
      | cons p t => exact ⟨p, t, rfl⟩
    have hev : evictIfFull c = t := evictIfFull_cons hfull hc
    have ht : t.length + 1 = c.maxSize := by
      have := congrArg List.length hc
      simp at this
      omega
    calc (mapSet k _ (evictIfFull c)).length
        ≤ (evictIfFull c).length + 1 := length_mapSet_le
      _ = t.length + 1 := by rw [hev]
      _ = c.maxSize := ht
  · rw [evictIfFull_of_lt (by omega)]
    calc (mapSet k _ c.cache).length ≤ c.cache.length + 1 := length_mapSet_le
      _ ≤ c.maxSize := by omega

theorem cacheWF_get {c : SimpleCache} (h : CacheWF c) (k : String) (now : Nat) :
    CacheWF (c.get k now).2 := by
  obtain ⟨hnd, hlen⟩ := h
  unfold SimpleCache.get
  cases hl : mapLookup k c.cache with
  | none => exact ⟨hnd, hlen⟩
  | some e =>
    by_cases hexp : now - e.timestamp > c.ttlMs
    · simp only [hexp, if_pos]
      exact ⟨mapKeys_nodup_mapDelete hnd,
        Nat.le_trans length_mapDelete_le hlen⟩
    · simp only [hexp, if_neg]
      exact ⟨hnd, hlen⟩

theorem cacheWF_applyOp {c : SimpleCache} (hm : 1 ≤ c.maxSize) (h : CacheWF c)
    (op : CacheOp) : CacheWF (applyCacheOp c op) := by
  cases op with
  | setOp k v now => exact cacheWF_set hm h k v now
  | getOp k now => exact cacheWF_get h k now
  | hasOp k now => exact cacheWF_get h k now

theorem maxSize_get (c : SimpleCache) (k : String) (now : Nat) :
    ((c.get k now).2).maxSize = c.maxSize := by
  unfold SimpleCache.get
  split
  · rfl
  · split
    · rfl
    · rfl

theorem maxSize_applyOp (c : SimpleCache) (op : CacheOp) :
    (applyCacheOp c op).maxSize = c.maxSize := by
  cases op with
  | setOp k v now => rfl
  | getOp k now => exact maxSize_get c k now
  | hasOp k now => exact maxSize_get c k now

theorem cacheWF_foldl (ops : List CacheOp) :
    ∀ (c : SimpleCache), CacheWF c → 1 ≤ c.maxSize →
      CacheWF (ops.foldl applyCacheOp c) ∧
        (ops.foldl applyCacheOp c).maxSize = c.maxSize := by
  induction ops with
  | nil => intro c h hm; exact ⟨h, rfl⟩
  | cons op rest ih =>
    intro c h hm
    have h₂ := cacheWF_applyOp hm h op
    have hms := maxSize_applyOp c op
    have h₃ := ih (applyCacheOp c op) h₂ (by rw [hms]; exact hm)
    exact ⟨h₃.1, by simp only [List.foldl_cons]; rw [h₃.2, hms]⟩

theorem cacheWF_runCacheOps (m ttl : Nat) (hm : 1 ≤ m) (ops : List CacheOp) :
    CacheWF (runCacheOps m ttl ops) ∧ (runCacheOps m ttl ops).maxSize = m := by
  unfold runCacheOps
  exact cacheWF_foldl ops (SimpleCache.empty m ttl)
    ⟨List.nodup_nil, by simp [SimpleCache.empty]⟩ hm

theorem get_eq_of_lookup_some {c : SimpleCache} {k : String} {e : CacheEntry}
    {now : Nat} (h : mapLookup k c.cache = some e) :
    c.get k now =
      if now - e.timestamp > c.ttlMs then
        (none, { c with cache := mapDelete k c.cache })
      else (some e.value, c) := by
  unfold SimpleCache.get
  rw [h]

theorem get_eq_of_lookup_none {c : SimpleCache} {k : String} {now : Nat}
    (h : mapLookup k c.cache = none) : c.get k now = (none, c) := by
  unfold SimpleCache.get
  rw [h]

/-! ### Claim C6: cache TTL boundary -/

/-- Claim C6: for every cache instance, an entry inserted under `k` at time
`T0` satisfies: `get(k)` at `T0 + ttl + 1` returns `null` and removes the
entry, while `get(k)` at `T0 + ttl - 1` returns the stored value.
(`1 ≤ ttl` keeps the earlier read after the insertion; the unique-keys
hypothesis is the JS `Map` invariant of any reachable cache.) -/
theorem cache_ttl_boundary (c : SimpleCache) (k v : String) (t0 : Nat)
    (hnd : (mapKeys c.cache).Nodup) (httl : 1 ≤ c.ttlMs) :
    ((c.set k v t0).get k (t0 + c.ttlMs + 1)).1 = none ∧
    mapLookup k (((c.set k v t0).get k (t0 + c.ttlMs + 1)).2).cache = none ∧
    ((c.set k v t0).get k (t0 + c.ttlMs - 1)).1 = some v := by
  have hlook : mapLookup k (c.set k v t0).cache = some ⟨v, t0⟩ :=
    mapLookup_mapSet_self
  have hnd₂ : (mapKeys (c.set k v t0).cache).Nodup :=
    mapKeys_nodup_mapSet (evictIfFull_nodup hnd)
  have hgt : (t0 + c.ttlMs + 1) - (CacheEntry.mk v t0).timestamp >
      (c.set k v t0).ttlMs := by
    show t0 + c.ttlMs + 1 - t0 > c.ttlMs
    omega
  have hle : ¬ ((t0 + c.ttlMs - 1) - (CacheEntry.mk v t0).timestamp >
      (c.set k v t0).ttlMs) := by
    show ¬ (t0 + c.ttlMs - 1 - t0 > c.ttlMs)
    omega
  refine ⟨?_, ?_, ?_⟩
  · rw [get_eq_of_lookup_some hlook, if_pos hgt]
  · rw [get_eq_of_lookup_some hlook, if_pos hgt]
    exact mapLookup_mapDelete_self hnd₂
  · rw [get_eq_of_lookup_some hlook, if_neg hle]

/-- Witness for C6 at a concrete instance (the street-view cache parameters:
capacity 200, TTL one hour). -/
theorem cache_ttl_boundary_witness :
    (((SimpleCache.empty 200 3600000).set "10 main st, tx 75001, usa" "img" 1000).get
        "10 main st, tx 75001, usa" (1000 + 3600000 + 1)).1 = none ∧
    mapLookup "10 main st, tx 75001, usa"
        ((((SimpleCache.empty 200 3600000).set "10 main st, tx 75001, usa" "img" 1000).get
            "10 main st, tx 75001, usa" (1000 + 3600000 + 1)).2).cache = none ∧
    (((SimpleCache.empty 200 3600000).set "10 main st, tx 75001, usa" "img" 1000).get
        "10 main st, tx 75001, usa" (1000 + 3600000 - 1)).1 = some "img" :=
  cache_ttl_boundary (SimpleCache.empty 200 3600000) "10 main st, tx 75001, usa"
    "img" 1000 (by decide) (by decide)

/-! ### Claim C7: eviction at capacity -/

theorem setAll_append (c : SimpleCache) (l₁ l₂ : List (String × String)) (now : Nat) :
    c.setAll (l₁ ++ l₂) now = (c.setAll l₁ now).setAll l₂ now := by
  simp [SimpleCache.setAll, List.foldl_append]

theorem setAll_fresh (now : Nat) :
    ∀ (kvs : List (String × String)) (c : SimpleCache),
      (mapKeys c.cache ++ kvs.map Prod.fst).Nodup →
      c.cache.length + kvs.length ≤ c.maxSize →
      (c.setAll kvs now).cache =
        c.cache ++ kvs.map (fun kv => (kv.1, CacheEntry.mk kv.2 now)) := by
  intro kvs
  induction kvs with
  | nil => intro c _ _; simp [SimpleCache.setAll]
  | cons hd tl ih =>
    intro c hnd hlen
    obtain ⟨k, v⟩ := hd
    have hlt : c.cache.length < c.maxSize := by
      simp only [List.length_cons] at hlen
      omega
    have hfresh : k ∉ mapKeys c.cache := by
      intro hk
      exact ((List.nodup_append.mp hnd).2.2 hk) (List.mem_cons_self _ _)
    have hset : (c.set k v now).cache = c.cache ++ [(k, CacheEntry.mk v now)] := by
      show mapSet k (CacheEntry.mk v now) (evictIfFull c) = _
      rw [evictIfFull_of_lt hlt, mapSet_of_not_mem hfresh]
    have hstep : c.setAll ((k, v) :: tl) now = (c.set k v now).setAll tl now := rfl
    have hnd₂ : (mapKeys (c.set k v now).cache ++ tl.map Prod.fst).Nodup := by
      rw [hset]
      have : mapKeys c.cache ++ (k, v).1 :: tl.map Prod.fst =
          (mapKeys c.cache ++ [(k, v).1]) ++ tl.map Prod.fst := by
        simp
      simp only [mapKeys_append, mapKeys_cons, mapKeys_nil]
      simpa using hnd
    have hlen₂ : (c.set k v now).cache.length + tl.length ≤ (c.set k v now).maxSize := by
      have hl : (c.set k v now).cache.length = c.cache.length + 1 := by
        rw [hset]; simp
      have hms : (c.set k v now).maxSize = c.maxSize := rfl
      simp only [List.length_cons] at hlen
      omega
    rw [hstep, ih (c.set k v now) hnd₂ hlen₂, hset]
    simp

/-- Claim C7: for every cache instance with capacity `maxSize ≥ 1`,
inserting `maxSize + 1` distinct keys into a fresh instance (no intervening
expiry: `set` never consults the TTL) leaves exactly `maxSize` entries; the
remaining keys are all but the first inserted, and the first-inserted key
has been evicted. -/
theorem cache_eviction_count (m ttl now : Nat) (kvs : List (String × String))
    (hm : 1 ≤ m) (hnd : (kvs.map Prod.fst).Nodup) (hlen : kvs.length = m + 1) :
    ((SimpleCache.empty m ttl).setAll kvs now).cache.length = m ∧
    mapKeys ((SimpleCache.empty m ttl).setAll kvs now).cache =
      (kvs.map Prod.fst).drop 1 ∧
    ∀ k₀, (kvs.map Prod.fst).head? = some k₀ →
      k₀ ∉ mapKeys ((SimpleCache.empty m ttl).setAll kvs now).cache := by
  have hne : kvs ≠ [] := by
    intro h
    rw [h] at hlen
    simp at hlen
  obtain ⟨hd, front₂, hfront⟩ : ∃ hd t, kvs.dropLast = hd :: t := by
    cases hdf : kvs.dropLast with
    | nil =>
      have : kvs.length - 1 = 0 := by
        have := congrArg List.length hdf
        simpa [List.length_dropLast] using this
      omega
    | cons a t => exact ⟨a, t, rfl⟩
  have hkvs : kvs.dropLast ++ [kvs.getLast hne] = kvs :=
    List.dropLast_append_getLast hne
  set front := kvs.dropLast with hfrontdef
  set lastkv := kvs.getLast hne with hlastdef
  have hfrontlen : front.length = m := by
    have := congrArg List.length hkvs
    simp at this
    omega
  have hfrontnd : (front.map Prod.fst).Nodup := by
    have hsub : (front.map Prod.fst).Sublist (kvs.map Prod.fst) :=
      (List.dropLast_sublist kvs).map Prod.fst
    exact hsub.nodup hnd
  have hA : ((SimpleCache.empty m ttl).setAll front now).cache =
      front.map (fun kv => (kv.1, CacheEntry.mk kv.2 now)) := by
    have := setAll_fresh now front (SimpleCache.empty m ttl)
      (by simpa [SimpleCache.empty] using hfrontnd)
      (by simp [SimpleCache.empty]; omega)
    simpa [SimpleCache.empty] using this
  set A := (SimpleCache.empty m ttl).setAll front now with hAdef
  have hAlen : A.cache.length = m := by rw [hA]; simp [hfrontlen]
  have hAmax : A.maxSize = m := by
    have : ∀ (c : SimpleCache) (l : List (String × String)),
        (c.setAll l now).maxSize = c.maxSize := by
      intro c l
      induction l generalizing c with
      | nil => rfl
      | cons x xs ih => exact (ih (c.set x.1 x.2 now)).trans rfl
    exact this (SimpleCache.empty m ttl) front
  have hsplit : (SimpleCache.empty m ttl).setAll kvs now =
      A.set lastkv.1 lastkv.2 now := by
    rw [← hkvs, setAll_append]
    rfl
  have hAcons : A.cache = (hd.1, CacheEntry.mk hd.2 now) ::
      front₂.map (fun kv => (kv.1, CacheEntry.mk kv.2 now)) := by
    rw [hA, hfront]
    simp
  have hev : evictIfFull A = front₂.map (fun kv => (kv.1, CacheEntry.mk kv.2 now)) :=
    evictIfFull_cons (by omega) hAcons
  have hkeysfront : mapKeys (front₂.map (fun kv => (kv.1, CacheEntry.mk kv.2 now))) =
      front₂.map Prod.fst := by
    simp [mapKeys, Function.comp]
  have hkvskeys : kvs.map Prod.fst = hd.1 :: (front₂.map Prod.fst ++ [lastkv.1]) := by
    rw [← hkvs, hfront]
    simp
  have hlastfresh : lastkv.1 ∉ mapKeys (front₂.map (fun kv => (kv.1, CacheEntry.mk kv.2 now))) := by
    rw [hkeysfront]
    rw [hkvskeys] at hnd
    have h₂ := (List.nodup_cons.mp hnd).2
    intro hmem
    exact (List.nodup_append.mp h₂).2.2 hmem (List.mem_singleton_self _)
  have hfinal : ((SimpleCache.empty m ttl).setAll kvs now).cache =
      front₂.map (fun kv => (kv.1, CacheEntry.mk kv.2 now)) ++
        [(lastkv.1, CacheEntry.mk lastkv.2 now)] := by
    rw [hsplit]
    show mapSet lastkv.1 (CacheEntry.mk lastkv.2 now) (evictIfFull A) = _
    rw [hev, mapSet_of_not_mem hlastfresh]
  have hfront₂len : front₂.length + 1 = m := by
    have := congrArg List.length hfront
    simp at this
    omega
  refine ⟨?_, ?_, ?_⟩
  · rw [hfinal]
    simp
    omega
  · rw [hfinal, hkvskeys]
    simp [mapKeys, Function.comp]
  · intro k₀ hk₀
    rw [hkvskeys] at hk₀ hnd
    simp only [List.head?_cons, Option.some.injEq] at hk₀
    subst hk₀
    rw [hfinal]
    intro hmem
    apply (List.nodup_cons.mp hnd).1
    simp only [mapKeys_append, List.mem_append] at hmem
    rw [hkeysfront] at hmem
    rcases hmem with hmem | hmem
    · simp only [List.mem_append]
      exact Or.inl hmem
    · simp only [mapKeys, List.map_cons, List.map_nil, List.mem_singleton] at hmem
      simp [hmem]

/-- Witness for C7: capacity 2, three distinct keys. -/
theorem cache_eviction_count_witness :
    ((SimpleCache.empty 2 100).setAll [("a", "1"), ("b", "2"), ("c", "3")] 0).cache.length = 2 ∧
    mapKeys ((SimpleCache.empty 2 100).setAll [("a", "1"), ("b", "2"), ("c", "3")] 0).cache =
      ([("a", "1"), ("b", "2"), ("c", "3")].map Prod.fst).drop 1 ∧
    ∀ k₀, ([("a", "1"), ("b", "2"), ("c", "3")].map Prod.fst).head? = some k₀ →
      k₀ ∉ mapKeys ((SimpleCache.empty 2 100).setAll [("a", "1"), ("b", "2"), ("c", "3")] 0).cache :=
  cache_eviction_count 2 100 0 [("a", "1"), ("b", "2"), ("c", "3")]
    (by decide) (by decide) (by decide)

/-! ### Claim C10: set at capacity always evicts the oldest entry -/

/-- Claim C10: on any cache state reachable by a sequence of operations on a
fresh instance with capacity `maxSize ≥ 1`, the occupancy never exceeds
`maxSize`; moreover, a `set` issued while the cache holds at least `maxSize`
entries deletes the oldest-inserted key `f` first even when the key `k`
being set is already present: afterwards `f` is gone, `k` is present, and
(for `k ≠ f` already present) the occupancy has dropped by one. -/
theorem cache_capacity_invariant (m ttl : Nat) (ops : List CacheOp)
    (k v : String) (now : Nat) (f : String) (hm : 1 ≤ m) :
    (runCacheOps m ttl ops).cache.length ≤ m ∧
    ((runCacheOps m ttl ops).cache.length ≥ m →
      firstKey (runCacheOps m ttl ops).cache = some f →
      k ∈ mapKeys (runCacheOps m ttl ops).cache →
      k ≠ f →
      f ∉ mapKeys ((runCacheOps m ttl ops).set k v now).cache ∧
      k ∈ mapKeys ((runCacheOps m ttl ops).set k v now).cache ∧
      ((runCacheOps m ttl ops).set k v now).cache.length + 1 =
        (runCacheOps m ttl ops).cache.length) := by
  obtain ⟨⟨hnd, hlen⟩, hmax⟩ := cacheWF_runCacheOps m ttl hm ops
  set c := runCacheOps m ttl ops with hc
  refine ⟨by omega, ?_⟩
  intro hfull hfirst hkmem hkne
  obtain ⟨e₀, t, hcc⟩ : ∃ e₀ t, c.cache = (f, e₀) :: t := by
    cases hcase : c.cache with
    | nil => rw [hcase] at hfirst; simp [firstKey] at hfirst
    | cons p rest =>
      obtain ⟨f₀, e₀⟩ := p
      rw [hcase] at hfirst
      simp only [firstKey, Option.some.injEq] at hfirst
      exact ⟨e₀, rest, by rw [hfirst]⟩
  have hev : evictIfFull c = t := evictIfFull_cons (by omega) hcc
  have hndt : (mapKeys t).Nodup := by
    rw [hcc] at hnd
    exact (List.nodup_cons.mp hnd).2
  have hfnott : f ∉ mapKeys t := by
    rw [hcc] at hnd
    exact (List.nodup_cons.mp hnd).1
  have hkmemt : k ∈ mapKeys t := by
    rw [hcc] at hkmem
    simp only [mapKeys_cons, List.mem_cons] at hkmem
    rcases hkmem with h | h
    · exact absurd h hkne
    · exact h
  have hset : (c.set k v now).cache = mapSet k (CacheEntry.mk v now) t := by
    show mapSet k (CacheEntry.mk v now) (evictIfFull c) = _
    rw [hev]
  refine ⟨?_, ?_, ?_⟩
  · rw [hset]
    exact not_mem_mapKeys_mapSet_of_ne (fun h => hkne h.symm) hfnott
  · rw [hset]
    exact mem_mapKeys_mapSet_self
  · rw [hset, length_mapSet_of_mem hkmemt, hcc]
    simp

/-- Witness for C10: capacity 2, overwriting the newer of two keys evicts
the older one. -/
theorem cache_capacity_invariant_witness :
    (runCacheOps 2 100 [.setOp "a" "x" 0, .setOp "b" "y" 0]).cache.length ≤ 2 ∧
    ((runCacheOps 2 100 [.setOp "a" "x" 0, .setOp "b" "y" 0]).cache.length ≥ 2 →
      firstKey (runCacheOps 2 100 [.setOp "a" "x" 0, .setOp "b" "y" 0]).cache = some "a" →
      "b" ∈ mapKeys (runCacheOps 2 100 [.setOp "a" "x" 0, .setOp "b" "y" 0]).cache →
      "b" ≠ "a" →
      "a" ∉ mapKeys ((runCacheOps 2 100 [.setOp "a" "x" 0, .setOp "b" "y" 0]).set "b" "z" 1).cache ∧
      "b" ∈ mapKeys ((runCacheOps 2 100 [.setOp "a" "x" 0, .setOp "b" "y" 0]).set "b" "z" 1).cache ∧
      ((runCacheOps 2 100 [.setOp "a" "x" 0, .setOp "b" "y" 0]).set "b" "z" 1).cache.length + 1 =
        (runCacheOps 2 100 [.setOp "a" "x" 0, .setOp "b" "y" 0]).cache.length) :=
  cache_capacity_invariant 2 100 [.setOp "a" "x" 0, .setOp "b" "y" 0] "b" "z" 1 "a"
    (by decide)

/-! ### GenerationQueue lemmas -/

theorem processStep_of_ge {s : QueueState} (h : s.running ≥ s.maxConcurrent) :
    processStep s = s := by
  unfold processStep
  rw [if_pos h]

theorem processStep_of_lt_nil {s : QueueState} (h : ¬ s.running ≥ s.maxConcurrent)
    (hp : s.pending = []) : processStep s = s := by
  unfold processStep
  rw [if_neg h, hp]

theorem processStep_of_lt_cons {s : QueueState} {t : QTask} {rest : List QTask}
    (h : ¬ s.running ≥ s.maxConcurrent) (hp : s.pending = t :: rest) :
    processStep s =
      { s with pending := rest, runningTasks := s.runningTasks ++ [t] } := by
  unfold processStep
  rw [if_neg h, hp]

theorem processStep_cases (s : QueueState) :
    processStep s = s ∨
    ∃ t rest, s.pending = t :: rest ∧ ¬ s.running ≥ s.maxConcurrent ∧
      processStep s =
        { s with pending := rest, runningTasks := s.runningTasks ++ [t] } := by
  by_cases hge : s.running ≥ s.maxConcurrent
  · exact Or.inl (processStep_of_ge hge)
  · cases hp : s.pending with
    | nil => exact Or.inl (processStep_of_lt_nil hge hp)
    | cons t rest =>
      exact Or.inr ⟨t, rest, rfl, hge, processStep_of_lt_cons hge hp⟩

theorem processStep_maxConcurrent (s : QueueState) :
    (processStep s).maxConcurrent = s.maxConcurrent := by
  rcases processStep_cases s with h | ⟨t, rest, _, _, h⟩
  · rw [h]
  · rw [h]

theorem processStep_settled (s : QueueState) :
    (processStep s).settled = s.settled := by
  rcases processStep_cases s with h | ⟨t, rest, _, _, h⟩
  · rw [h]
  · rw [h]

theorem processStep_load (s : QueueState) : load (processStep s) = load s := by
  rcases processStep_cases s with h | ⟨t, rest, hp, _, h⟩
  · rw [h]
  · rw [h]
    show rest.length + (s.runningTasks ++ [t]).length =
      s.pending.length + s.runningTasks.length
    rw [hp]
    simp
    omega

theorem processStep_tasksOf (s : QueueState) : tasksOf (processStep s) = tasksOf s := by
  rcases processStep_cases s with h | ⟨t, rest, hp, _, h⟩
  · rw [h]
  · rw [h]
    show (↑rest + ↑(s.runningTasks ++ [t]) + ↑(s.settled.map Prod.fst) : Multiset QTask) =
      ↑s.pending + ↑s.runningTasks + ↑(s.settled.map Prod.fst)
    rw [hp]
    have h₁ : (↑(s.runningTasks ++ [t]) : Multiset QTask) = ↑s.runningTasks + ↑[t] :=
      (Multiset.coe_add _ _).symm
    have h₂ : (↑(t :: rest) : Multiset QTask) = ↑[t] + ↑rest := by
      rw [Multiset.coe_add, List.singleton_append]
    rw [h₁, h₂]
    abel

theorem addTask_maxConcurrent (s : QueueState) (t : QTask) :
    (addTask s t).maxConcurrent = s.maxConcurrent :=
  processStep_maxConcurrent _

theorem finishTask_maxConcurrent (s : QueueState) (i : Nat) :
    (finishTask s i).maxConcurrent = s.maxConcurrent := by
  unfold finishTask
  split
  · exact processStep_maxConcurrent _
  · rfl

theorem queueWF_addTask {s : QueueState} (h : QueueWF s) (t : QTask) :
    QueueWF (addTask s t) := by
  obtain ⟨h₁, h₂⟩ := h
  show QueueWF (processStep { s with pending := s.pending ++ [t] })
  set s₁ : QueueState := { s with pending := s.pending ++ [t] } with hs₁
  by_cases hge : s₁.running ≥ s₁.maxConcurrent
  · rw [processStep_of_ge hge]
    have hge₂ : s.running ≥ s.maxConcurrent := hge
    refine ⟨?_, fun _ => ?_⟩
    · show s.running ≤ s.maxConcurrent
      exact h₁
    · show s.running = s.maxConcurrent
      omega
  · have hlt : s.running < s.maxConcurrent := by
      have hge₂ : ¬ s.running ≥ s.maxConcurrent := hge
      omega
    have hp : s.pending = [] := by
      by_contra hne
      have := h₂ hne
      omega
    have hp₁ : s₁.pending = t :: [] := by
      show s.pending ++ [t] = t :: []
      rw [hp]
      rfl
    rw [processStep_of_lt_cons hge hp₁]
    refine ⟨?_, fun hcon => absurd rfl hcon⟩
    show (s.runningTasks ++ [t]).length ≤ s.maxConcurrent
    have hr : s.running = s.runningTasks.length := rfl
    simp only [List.length_append, List.length_singleton]
    omega

theorem queueWF_finishTask {s : QueueState} (h : QueueWF s) (i : Nat) :
    QueueWF (finishTask s i) := by
  obtain ⟨h₁, h₂⟩ := h
  unfold finishTask
  split
  · rename_i hlt
    set s₂ : QueueState :=
      { s with runningTasks := s.runningTasks.eraseIdx i,
               settled := s.settled ++ [(s.runningTasks.get ⟨i, hlt⟩,
                 (s.runningTasks.get ⟨i, hlt⟩).fails)] } with hs₂
    have hr : s.running = s.runningTasks.length := rfl
    have hr₂ : s₂.running = (s.runningTasks.eraseIdx i).length := rfl
    have hm₂ : s₂.maxConcurrent = s.maxConcurrent := rfl
    have hlen : (s.runningTasks.eraseIdx i).length + 1 = s.runningTasks.length :=
      List.length_eraseIdx_add_one hlt
    show QueueWF (processStep s₂)
    by_cases hge : s₂.running ≥ s₂.maxConcurrent
    · rw [processStep_of_ge hge]
      refine ⟨?_, fun _ => ?_⟩
      · show s₂.running ≤ s₂.maxConcurrent
        omega
      · show s₂.running = s₂.maxConcurrent
        omega
    · cases hp : s₂.pending with
      | nil =>
        rw [processStep_of_lt_nil hge hp]
        refine ⟨?_, fun hne => absurd hp hne⟩
        show s₂.running ≤ s₂.maxConcurrent
        omega
      | cons q rest =>
        have hpend : s.pending = q :: rest := hp
        have hrun : s.running = s.maxConcurrent := h₂ (by rw [hpend]; simp)
        rw [processStep_of_lt_cons hge hp]
        refine ⟨?_, fun _ => ?_⟩
        · show (s₂.runningTasks ++ [q]).length ≤ s₂.maxConcurrent
          have hr₃ : s₂.runningTasks.length = (s.runningTasks.eraseIdx i).length := rfl
          simp only [List.length_append, List.length_singleton]
          omega
        · show (s₂.runningTasks ++ [q]).length = s₂.maxConcurrent
          have hr₃ : s₂.runningTasks.length = (s.runningTasks.eraseIdx i).length := rfl
          simp only [List.length_append, List.length_singleton]
          omega
  · exact ⟨h₁, h₂⟩

theorem queueWF_applyQEvent {s : QueueState} (h : QueueWF s) (ev : QEvent) :
    QueueWF (applyQEvent s ev) := by
  cases ev with
  | add t => exact queueWF_addTask h t
  | finish i => exact queueWF_finishTask h i

theorem queueWF_foldl (evs : List QEvent) :
    ∀ (s : QueueState), QueueWF s → QueueWF (evs.foldl applyQEvent s) := by
  induction evs with
  | nil => intro s h; exact h
  | cons ev rest ih => intro s h; exact ih _ (queueWF_applyQEvent h ev)

theorem queueWF_init (m : Nat) : QueueWF (QueueState.init m) :=
  ⟨Nat.zero_le _, fun h => absurd rfl h⟩

/-! ### Claim C1: concurrency bound -/

theorem foldl_applyQEvent_maxConcurrent (evs : List QEvent) :
    ∀ (s : QueueState), (evs.foldl applyQEvent s).maxConcurrent = s.maxConcurrent := by
  induction evs with
  | nil => intro s; rfl
  | cons ev rest ih =>
    intro s
    have hstep : (applyQEvent s ev).maxConcurrent = s.maxConcurrent := by
      cases ev with
      | add t => exact addTask_maxConcurrent s t
      | finish i => exact finishTask_maxConcurrent s i
    simp only [List.foldl_cons]
    rw [ih (applyQEvent s ev), hstep]

/-- Claim C1: for every interleaving of `add` events (tasks blocking
arbitrarily long, settling in any order via `finish` events) against a fresh
`GenerationQueue`, the number of simultaneously executing tasks — the
`running` component of `getStatus()` — never exceeds `maxConcurrent`. -/
theorem queue_concurrency_bound (maxConcurrent : Nat) (evs : List QEvent) :
    ((runQEvents maxConcurrent evs).getStatus).1 ≤ maxConcurrent := by
  have hWF : QueueWF (runQEvents maxConcurrent evs) :=
    queueWF_foldl evs _ (queueWF_init maxConcurrent)
  have hmax : (runQEvents maxConcurrent evs).maxConcurrent = maxConcurrent :=
    foldl_applyQEvent_maxConcurrent evs (QueueState.init maxConcurrent)
  show (runQEvents maxConcurrent evs).running ≤ maxConcurrent
  calc (runQEvents maxConcurrent evs).running
      ≤ (runQEvents maxConcurrent evs).maxConcurrent := hWF.1
    _ = maxConcurrent := hmax

/-! ### Claim C8: every task settles exactly once, independently -/

theorem eraseIdx_cons_perm :
    ∀ (l : List QTask) (i : Nat) (h : i < l.length),
      l.Perm (l.get ⟨i, h⟩ :: l.eraseIdx i) := by
  intro l
  induction l with
  | nil => intro i h; simp at h
  | cons a t ih =>
    intro i h
    cases i with
    | zero => simp [List.eraseIdx]
    | succ j =>
      have hj : j < t.length := by simpa using h
      have hperm := ih j hj
      have h₁ : List.Perm (a :: t) (a :: (t.get ⟨j, hj⟩ :: t.eraseIdx j)) :=
        List.Perm.cons a hperm
      have h₂ : List.Perm (a :: (t.get ⟨j, hj⟩ :: t.eraseIdx j))
          (t.get ⟨j, hj⟩ :: a :: t.eraseIdx j) := List.Perm.swap _ _ _
      have h₃ := h₁.trans h₂
      simpa using h₃

theorem finishTask_tasksOf (s : QueueState) (i : Nat) :
    tasksOf (finishTask s i) = tasksOf s := by
  unfold finishTask
  split
  · rename_i hlt
    set t := s.runningTasks.get ⟨i, hlt⟩ with ht
    show tasksOf (processStep
      { s with runningTasks := s.runningTasks.eraseIdx i,
               settled := s.settled ++ [(t, t.fails)] }) = tasksOf s
    rw [processStep_tasksOf]
    show (↑s.pending + ↑(s.runningTasks.eraseIdx i) +
        ↑((s.settled ++ [(t, t.fails)]).map Prod.fst) : Multiset QTask) = tasksOf s
    have hrun : (↑s.runningTasks : Multiset QTask) =
        ↑(t :: s.runningTasks.eraseIdx i) :=
      Multiset.coe_eq_coe.mpr (eraseIdx_cons_perm s.runningTasks i hlt)
    have hsettle : ((s.settled ++ [(t, t.fails)]).map Prod.fst) =
        s.settled.map Prod.fst ++ [t] := by simp
    rw [hsettle]
    show _ = (↑s.pending + ↑s.runningTasks + ↑(s.settled.map Prod.fst) : Multiset QTask)
    rw [hrun]
    have hc₁ : (↑(t :: s.runningTasks.eraseIdx i) : Multiset QTask) =
        ↑[t] + ↑(s.runningTasks.eraseIdx i) := by
      rw [Multiset.coe_add, List.singleton_append]
    have hc₂ : (↑(s.settled.map Prod.fst ++ [t]) : Multiset QTask) =
        ↑(s.settled.map Prod.fst) + ↑[t] := (Multiset.coe_add _ _).symm
    rw [hc₁, hc₂]
    abel
  · rfl

theorem finishTask_load {s : QueueState} {i : Nat} (h : i < s.runningTasks.length) :
    load (finishTask s i) + 1 = load s := by
  unfold finishTask
  rw [dif_pos h]
  set t := s.runningTasks.get ⟨i, h⟩ with ht
  show load (processStep
    { s with runningTasks := s.runningTasks.eraseIdx i,
             settled := s.settled ++ [(t, t.fails)] }) + 1 = load s
  rw [processStep_load]
  show (s.pending.length + (s.runningTasks.eraseIdx i).length) + 1 =
    s.pending.length + s.runningTasks.length
  have := List.length_eraseIdx_add_one h
  omega

theorem finishTask_settledRespects {s : QueueState} (hresp : settledRespects s)
    (i : Nat) : settledRespects (finishTask s i) := by
  unfold finishTask
  split
  · rename_i hlt
    set t := s.runningTasks.get ⟨i, hlt⟩ with ht
    intro p hp
    rw [show (processStep
      { s with runningTasks := s.runningTasks.eraseIdx i,
               settled := s.settled ++ [(t, t.fails)] }).settled =
        s.settled ++ [(t, t.fails)] from processStep_settled _] at hp
    rcases List.mem_append.mp hp with hmem | hmem
    · exact hresp p hmem
    · rw [List.mem_singleton.mp hmem]
  · exact hresp

theorem addTask_tasksOf (s : QueueState) (t : QTask) :
    tasksOf (addTask s t) = tasksOf s + ↑[t] := by
  unfold addTask
  rw [processStep_tasksOf]
  show (↑(s.pending ++ [t]) + ↑s.runningTasks + ↑(s.settled.map Prod.fst) : Multiset QTask) =
    (↑s.pending + ↑s.runningTasks + ↑(s.settled.map Prod.fst)) + ↑[t]
  have hc : (↑(s.pending ++ [t]) : Multiset QTask) = ↑s.pending + ↑[t] :=
    (Multiset.coe_add _ _).symm
  rw [hc]
  abel

theorem addTask_settled (s : QueueState) (t : QTask) :
    (addTask s t).settled = s.settled := by
  unfold addTask
  rw [processStep_settled]

theorem addAll_settled (ts : List QTask) :
    ∀ (s : QueueState), (addAll s ts).settled = s.settled := by
  induction ts with
  | nil => intro s; rfl
  | cons t rest ih =>
    intro s
    show (addAll (addTask s t) rest).settled = s.settled
    rw [ih (addTask s t), addTask_settled]

theorem addAll_tasksOf (ts : List QTask) :
    ∀ (s : QueueState), tasksOf (addAll s ts) = tasksOf s + ↑ts := by
  induction ts with
  | nil =>
    intro s
    show tasksOf s = tasksOf s + ↑([] : List QTask)
    simp
  | cons t rest ih =>
    intro s
    show tasksOf (addAll (addTask s t) rest) = tasksOf s + ↑(t :: rest)
    rw [ih (addTask s t), addTask_tasksOf]
    have hc : (↑(t :: rest) : Multiset QTask) = ↑[t] + ↑rest := by
      rw [Multiset.coe_add, List.singleton_append]
    rw [hc]
    abel

theorem queueWF_addAll (ts : List QTask) :
    ∀ (s : QueueState), QueueWF s → QueueWF (addAll s ts) := by
  induction ts with
  | nil => intro s h; exact h
  | cons t rest ih =>
    intro s h
    exact ih (addTask s t) (queueWF_addTask h t)

theorem addTask_maxConcurrent_addAll (ts : List QTask) :
    ∀ (s : QueueState), (addAll s ts).maxConcurrent = s.maxConcurrent := by
  induction ts with
  | nil => intro s; rfl
  | cons t rest ih =>
    intro s
    show (addAll (addTask s t) rest).maxConcurrent = s.maxConcurrent
    rw [ih (addTask s t), addTask_maxConcurrent]

theorem drainQueue_spec (sched : Nat → Nat) :
    ∀ (fuel : Nat) (s : QueueState), 1 ≤ s.maxConcurrent → QueueWF s →
      settledRespects s → load s ≤ fuel →
      (drainQueue sched fuel s).pending = [] ∧
      (drainQueue sched fuel s).runningTasks = [] ∧
      tasksOf (drainQueue sched fuel s) = tasksOf s ∧
      settledRespects (drainQueue sched fuel s) := by
  intro fuel
  induction fuel with
  | zero =>
    intro s hm hWF hresp hload
    unfold load at hload
    have hp : s.pending = [] := by
      have : s.pending.length = 0 := by omega
      exact List.eq_nil_of_length_eq_zero this
    have hr : s.runningTasks = [] := by
      have : s.runningTasks.length = 0 := by omega
      exact List.eq_nil_of_length_eq_zero this
    exact ⟨hp, hr, rfl, hresp⟩
  | succ fuel ih =>
    intro s hm hWF hresp hload
    have hstep : drainQueue sched (fuel + 1) s =
        if s.runningTasks = [] then s
        else drainQueue sched fuel
          (finishTask s (sched fuel % s.runningTasks.length)) := rfl
    rw [hstep]
    by_cases hrt : s.runningTasks = []
    · rw [if_pos hrt]
      have hp : s.pending = [] := by
        by_contra hne
        have hrun := hWF.2 hne
        have h₀ : s.running = 0 := by
          show s.runningTasks.length = 0
          rw [hrt]
          rfl
        omega
      exact ⟨hp, hrt, rfl, hresp⟩
    · rw [if_neg hrt]
      have hlen0 : 0 < s.runningTasks.length :=
        List.length_pos.mpr hrt
      have hi : sched fuel % s.runningTasks.length < s.runningTasks.length :=
        Nat.mod_lt _ hlen0
      have hWF₂ := queueWF_finishTask hWF (sched fuel % s.runningTasks.length)
      have hm₂ : (finishTask s (sched fuel % s.runningTasks.length)).maxConcurrent =
          s.maxConcurrent := finishTask_maxConcurrent _ _
      have hload₂ := finishTask_load hi
      have hresp₂ := finishTask_settledRespects hresp (sched fuel % s.runningTasks.length)
      have htasks := finishTask_tasksOf s (sched fuel % s.runningTasks.length)
      obtain ⟨h1, h2, h3, h4⟩ := ih (finishTask s (sched fuel % s.runningTasks.length))
        (by rw [hm₂]; exact hm) hWF₂ hresp₂ (by omega)
      exact ⟨h1, h2, by rw [h3, htasks], h4⟩

/-- Claim C8: for any batch of tasks (some of which may fail) submitted to a
fresh `GenerationQueue` with `maxConcurrent ≥ 1`, running the queue to
completion under an arbitrary settlement schedule leaves no pending or
in-flight task; the settlement records contain exactly the submitted tasks
(each settled exactly once, as a multiset), and each caller received its own
task's outcome — one task's rejection neither cancels nor prevents any
sibling's settlement. -/
theorem queue_completion (maxConcurrent : Nat) (ts : List QTask)
    (sched : Nat → Nat) (hmax : 1 ≤ maxConcurrent) :
    (drainQueue sched (load (addAll (QueueState.init maxConcurrent) ts))
        (addAll (QueueState.init maxConcurrent) ts)).pending = [] ∧
    (drainQueue sched (load (addAll (QueueState.init maxConcurrent) ts))
        (addAll (QueueState.init maxConcurrent) ts)).runningTasks = [] ∧
    (↑((drainQueue sched (load (addAll (QueueState.init maxConcurrent) ts))
        (addAll (QueueState.init maxConcurrent) ts)).settled.map Prod.fst) :
      Multiset QTask) = ↑ts ∧
    settledRespects (drainQueue sched (load (addAll (QueueState.init maxConcurrent) ts))
        (addAll (QueueState.init maxConcurrent) ts)) := by
  set s0 := addAll (QueueState.init maxConcurrent) ts with hs0
  have hWF0 : QueueWF s0 := queueWF_addAll ts _ (queueWF_init maxConcurrent)
  have hm0 : s0.maxConcurrent = maxConcurrent :=
    addTask_maxConcurrent_addAll ts (QueueState.init maxConcurrent)
  have hsettled0 : s0.settled = [] := addAll_settled ts (QueueState.init maxConcurrent)
  have hresp0 : settledRespects s0 := by
    intro p hp
    rw [hsettled0] at hp
    simp at hp
  have htasks0 : tasksOf s0 = ↑ts := by
    rw [hs0, addAll_tasksOf ts (QueueState.init maxConcurrent)]
    show (↑([] : List QTask) + ↑([] : List QTask) +
      ↑(([] : List (QTask × Bool)).map Prod.fst) : Multiset QTask) + ↑ts = ↑ts
    simp
  obtain ⟨h1, h2, h3, h4⟩ := drainQueue_spec sched (load s0) s0
    (by rw [hm0]; exact hmax) hWF0 hresp0 (Nat.le_refl _)
  refine ⟨h1, h2, ?_, h4⟩
  have hfinal := h3.trans htasks0
  rw [show tasksOf (drainQueue sched (load s0) s0) =
      ↑(drainQueue sched (load s0) s0).pending +
      ↑(drainQueue sched (load s0) s0).runningTasks +
      ↑((drainQueue sched (load s0) s0).settled.map Prod.fst) from rfl, h1, h2] at hfinal
  simpa using hfinal

/-- Witness for C8: five tasks, two of which fail, on the production queue
size (`maxConcurrent = 3`), settled in schedule order. -/
theorem queue_completion_witness :
    (drainQueue (fun k => k)
        (load (addAll (QueueState.init 3)
          [⟨0, false⟩, ⟨1, true⟩, ⟨2, false⟩, ⟨3, true⟩, ⟨4, false⟩]))
        (addAll (QueueState.init 3)
          [⟨0, false⟩, ⟨1, true⟩, ⟨2, false⟩, ⟨3, true⟩, ⟨4, false⟩])).pending = [] ∧
    (drainQueue (fun k => k)
        (load (addAll (QueueState.init 3)
          [⟨0, false⟩, ⟨1, true⟩, ⟨2, false⟩, ⟨3, true⟩, ⟨4, false⟩]))
        (addAll (QueueState.init 3)
          [⟨0, false⟩, ⟨1, true⟩, ⟨2, false⟩, ⟨3, true⟩, ⟨4, false⟩])).runningTasks = [] ∧
    (↑((drainQueue (fun k => k)
        (load (addAll (QueueState.init 3)
          [⟨0, false⟩, ⟨1, true⟩, ⟨2, false⟩, ⟨3, true⟩, ⟨4, false⟩]))
        (addAll (QueueState.init 3)
          [⟨0, false⟩, ⟨1, true⟩, ⟨2, false⟩, ⟨3, true⟩, ⟨4, false⟩])).settled.map Prod.fst) :
      Multiset QTask) = ↑[⟨0, false⟩, ⟨1, true⟩, ⟨2, false⟩, ⟨3, true⟩, (⟨4, false⟩ : QTask)] ∧
    settledRespects (drainQueue (fun k => k)
        (load (addAll (QueueState.init 3)
          [⟨0, false⟩, ⟨1, true⟩, ⟨2, false⟩, ⟨3, true⟩, ⟨4, false⟩]))
        (addAll (QueueState.init 3)
          [⟨0, false⟩, ⟨1, true⟩, ⟨2, false⟩, ⟨3, true⟩, ⟨4, false⟩])) :=
  queue_completion 3 [⟨0, false⟩, ⟨1, true⟩, ⟨2, false⟩, ⟨3, true⟩, ⟨4, false⟩]
    (fun k => k) (by decide)

/-! ### Claim C3: sanitizer idempotence -/

theorem dropWhile_head_false {p : Char → Bool} :
    ∀ (l : List Char) (c : Char) (rest : List Char),
      l.dropWhile p = c :: rest → p c = false := by
  intro l
  induction l with
  | nil => intro c rest h; simp [List.dropWhile] at h
  | cons a t ih =>
    intro c rest h
    by_cases hp : p a
    · rw [List.dropWhile_cons_of_pos hp] at h
      exact ih c rest h
    · rw [List.dropWhile_cons_of_neg hp] at h
      obtain ⟨rfl, -⟩ := List.cons.inj h
      simpa using hp

theorem dropWhile_eq_self {p : Char → Bool} (l : List Char)
    (h : ∀ c rest, l = c :: rest → p c = false) : l.dropWhile p = l := by
  cases l with
  | nil => rfl
  | cons c rest =>
    have hc := h c rest rfl
    simp [List.dropWhile_cons, hc]

theorem trimEndL_eq_self (l : List Char)
    (h : ∀ c, l.getLast? = some c → jsIsSpace c = false) : trimEndL l = l := by
  unfold trimEndL
  have hd : l.reverse.dropWhile jsIsSpace = l.reverse := by
    apply dropWhile_eq_self
    intro c rest hrev
    apply h
    have hh : l.reverse.head? = some c := by rw [hrev]; rfl
    rwa [List.head?_reverse] at hh
  rw [hd, List.reverse_reverse]

theorem jsTrimL_eq_self (l : List Char)
    (hhead : ∀ c rest, l = c :: rest → jsIsSpace c = false)
    (hlast : ∀ c, l.getLast? = some c → jsIsSpace c = false) : jsTrimL l = l := by
  unfold jsTrimL trimStartL
  rw [dropWhile_eq_self l hhead, trimEndL_eq_self l hlast]

theorem take_head {l : List Char} {n : Nat} {c : Char} {rest : List Char}
    (h : l.take n = c :: rest) : ∃ rest₂, l = c :: rest₂ := by
  cases n with
  | zero => simp at h
  | succ m =>
    cases l with
    | nil => simp at h
    | cons a t =>
      rw [List.take_succ_cons] at h
      obtain ⟨rfl, -⟩ := List.cons.inj h
      exact ⟨t, rfl⟩

theorem trimEndL_head {w : List Char} {c : Char} {rest : List Char}
    (h : trimEndL w = c :: rest) : ∃ rest₂, w = c :: rest₂ := by
  unfold trimEndL at h
  obtain ⟨t, ht⟩ := List.dropWhile_suffix (l := w.reverse) (p := jsIsSpace)
  have hdw : w.reverse.dropWhile jsIsSpace = (c :: rest).reverse := by
    rw [← h, List.reverse_reverse]
  rw [hdw] at ht
  have hw := congrArg List.reverse ht
  rw [List.reverse_append, List.reverse_reverse, List.reverse_reverse] at hw
  exact ⟨rest ++ t.reverse, by rw [← hw]; simp⟩

theorem jsTrimL_head {l : List Char} {c : Char} {rest : List Char}
    (h : jsTrimL l = c :: rest) : jsIsSpace c = false := by
  unfold jsTrimL at h
  obtain ⟨rest₂, h₂⟩ := trimEndL_head h
  exact dropWhile_head_false _ c rest₂ h₂

theorem sanitizeAddressL_some_inv {l y : List Char}
    (h : sanitizeAddressL l = some y) :
    y = jsSliceL 200 (jsTrimL l) ∧ addressCharsOK y = true ∧
      (usCheck y || polandCheck y) = true := by
  unfold sanitizeAddressL at h
  by_cases h₁ : l.isEmpty = true
  · rw [if_pos h₁] at h; cases h
  · rw [if_neg h₁] at h
    by_cases h₂ : addressCharsOK (jsSliceL 200 (jsTrimL l)) = true
    · rw [if_pos h₂] at h
      by_cases h₃ : (usCheck (jsSliceL 200 (jsTrimL l)) ||
          polandCheck (jsSliceL 200 (jsTrimL l))) = true
      · rw [if_pos h₃] at h
        have hy := (Option.some.inj h).symm
        subst hy
        exact ⟨rfl, h₂, h₃⟩
      · rw [if_neg h₃] at h; cases h
    · rw [if_neg h₂] at h; cases h

theorem sanitizeAddressL_idem {x y : List Char}
    (hx : sanitizeAddressL x = some y)
    (hlast : ∀ c, y.getLast? = some c → jsIsSpace c = false) :
    sanitizeAddressL y = some y := by
  obtain ⟨hy, hok, hchk⟩ := sanitizeAddressL_some_inv hx
  have hne : y.isEmpty = false := by
    unfold addressCharsOK at hok
    cases hcy : y.isEmpty
    · rfl
    · rw [hcy] at hok; simp at hok
  have hhead : ∀ c rest, y = c :: rest → jsIsSpace c = false := by
    intro c rest hc
    rw [hy] at hc
    obtain ⟨rest₂, h₂⟩ := take_head hc
    exact jsTrimL_head h₂
  have htrim : jsTrimL y = y := jsTrimL_eq_self y hhead hlast
  have hlen : y.length ≤ 200 := by
    rw [hy]
    unfold jsSliceL
    exact List.length_take_le 200 (jsTrimL x)
  have hslice : jsSliceL 200 y = y := by
    unfold jsSliceL
    exact List.take_of_length_le hlen
  unfold sanitizeAddressL
  rw [if_neg (by simp [hne]), htrim, hslice, if_pos hok, if_pos hchk]

set_option maxRecDepth 40000 in
/-- Claim C3 counterexample: the 201-character trimmed address
`"USA" ++ 196 × 'a' ++ " b"` is accepted, but its sanitized form ends in a
space (truncation at 200 characters cut just before the final `b`), so a
second application of the sanitizer trims that space and yields a different
(199-character) string.  The claim `sanitize(sanitize(x)) == sanitize(x)`
is therefore false as stated. -/
theorem sanitize_not_idempotent :
    sanitizeAddress (List.asString cexAddrL) =
      some (List.asString ("USA".data ++ List.replicate 196 'a' ++ [' '])) ∧
    sanitizeAddress (List.asString ("USA".data ++ List.replicate 196 'a' ++ [' '])) =
      some (List.asString ("USA".data ++ List.replicate 196 'a')) ∧
    List.asString ("USA".data ++ List.replicate 196 'a') ≠
      List.asString ("USA".data ++ List.replicate 196 'a' ++ [' ']) :=
  ⟨by decide, by decide, by decide⟩

/-- Claim C3 amended: the sanitizer is idempotent on every accepted input
whose sanitized form does not end in whitespace — in particular on every
accepted address whose trimmed form fits in the 200-character bound.  (The
only failures are 200-character truncations that cut just after a space, as
in the counterexample; on such outputs a second pass additionally trims the
trailing whitespace.) -/
theorem sanitize_idempotent_amended (x y : String)
    (hx : sanitizeAddress x = some y)
    (hlast : (y.data.getLast?.all fun c => !jsIsSpace c) = true) :
    sanitizeAddress y = some y := by
  unfold sanitizeAddress at hx ⊢
  cases hly : sanitizeAddressL x.data with
  | none => rw [hly] at hx; cases hx
  | some ly =>
    rw [hly] at hx
    have hxy : List.asString ly = y := Option.some.inj hx
    have hdata : y.data = ly := by
      rw [← hxy]
      rfl
    have hlast₂ : ∀ c, ly.getLast? = some c → jsIsSpace c = false := by
      intro c hc
      rw [hdata, hc] at hlast
      simpa using hlast
    have h₂ : sanitizeAddressL ly = some ly := sanitizeAddressL_idem hly hlast₂
    rw [hdata, h₂]
    show some ly.asString = some y
    rw [hxy]

/-- Witness for the amended C3 at a concrete accepted address. -/
theorem sanitize_idempotent_amended_witness :
    sanitizeAddress "10 Main St, Dallas TX 75001, USA" =
      some "10 Main St, Dallas TX 75001, USA" :=
  sanitize_idempotent_amended "10 Main St, Dallas TX 75001, USA"
    "10 Main St, Dallas TX 75001, USA" (by decide) (by decide)

/-! ### The generation endpoint: helper characterizations -/

theorem coverageFallbackOut_blurredAddress (env : V2Env) (effs : List Effect)
    (sv av idc : SimpleCache) (styleId : String) :
    (coverageFallbackOut env effs sv av idc styleId).resp.blurredAddress = none := by
  unfold coverageFallbackOut
  split
  · rfl
  · rfl

theorem coverageFallbackOut_noStreetView (env : V2Env) (effs : List Effect)
    (sv av idc : SimpleCache) (styleId : String) :
    (coverageFallbackOut env effs sv av idc styleId).resp.noStreetView = some true := by
  unfold coverageFallbackOut
  split
  · rfl
  · rfl

theorem coverageFallbackOut_fallbackHome (env : V2Env) (effs : List Effect)
    (sv av idc : SimpleCache) (styleId : String) :
    (coverageFallbackOut env effs sv av idc styleId).resp.fallbackHome =
      (getRandomFamousHomeFallback env.fsExists env.randomDraw styleId).map
        FallbackResult.home := by
  unfold coverageFallbackOut
  split
  · rename_i fb heq
    rw [heq]
    rfl
  · rename_i heq
    rw [heq]
    rfl

theorem coverageFallbackOut_lookup_some {env : V2Env} {effs : List Effect}
    {sv av idc : SimpleCache} {styleId : String} {fb : FallbackResult}
    (h : getRandomFamousHomeFallback env.fsExists env.randomDraw styleId = some fb) :
    (coverageFallbackOut env effs sv av idc styleId).resp.status = 200 ∧
    (coverageFallbackOut env effs sv av idc styleId).resp.success = true ∧
    (coverageFallbackOut env effs sv av idc styleId).resp.fallbackHome = some fb.home := by
  unfold coverageFallbackOut
  rw [h]
  exact ⟨rfl, rfl, rfl⟩

theorem coverageFallbackOut_lookup_none {env : V2Env} {effs : List Effect}
    {sv av idc : SimpleCache} {styleId : String}
    (h : getRandomFamousHomeFallback env.fsExists env.randomDraw styleId = none) :
    (coverageFallbackOut env effs sv av idc styleId).resp.status = 400 ∧
    (coverageFallbackOut env effs sv av idc styleId).resp.fallbackHome = none := by
  unfold coverageFallbackOut
  rw [h]
  exact ⟨rfl, rfl⟩

theorem v2AfterCoverage_blurredAddress (env : V2Env) (effs : List Effect)
    (sv av idc : SimpleCache) (cacheKey : String) :
    (v2AfterCoverage env effs sv av idc cacheKey).resp.blurredAddress = none := by
  unfold v2AfterCoverage
  dsimp only
  repeat' split
  all_goals rfl

theorem v2AfterCoverage_no_fallback_model (env : V2Env) (effs : List Effect)
    (sv av idc : SimpleCache) (cacheKey : String) :
    (v2AfterCoverage env effs sv av idc cacheKey).resp.model ≠ some "fallback" := by
  unfold v2AfterCoverage
  dsimp only
  repeat' split
  all_goals simp [v2Err500]

/-- Reduction of the handler to the no-coverage terminal state. -/
theorem handleGenerateV2_coverage_absent (env : V2Env) (sv av idc : SimpleCache)
    (address : Option String) (styleId s st : String)
    (hvalid : isValidStyleId styleId = true)
    (hsan : sanitizeReq address = some s)
    (hkey : env.hasMapsKey = true)
    (hmeta : env.metadata = .ok st)
    (hnok : st ≠ "OK") :
    handleGenerateV2 env sv av idc address styleId =
      coverageFallbackOut env [Effect.metadataFetch] sv av idc styleId := by
  have hbne : (st != "OK") = true := by
    simpa using hnok
  unfold handleGenerateV2
  rw [hvalid, hsan, hkey, hmeta]
  show (if !true then _ else _) = _
  rw [if_neg (by decide)]
  dsimp only
  rw [if_pos rfl, hbne]
  rfl

/-! ### Claim C2: style allowlist closure -/

/-- Claim C2: a request whose `styleId` is not a key of the server-side
allowlist is answered 400 before anything else happens: no provider call
(metadata, imagery fetch, vision, synthesis), no generation-log write, and
no cache mutation. -/
theorem style_allowlist_closure (env : V2Env) (sv av idc : SimpleCache)
    (address : Option String) (styleId : String)
    (h : isValidStyleId styleId = false) :
    (handleGenerateV2 env sv av idc address styleId).resp.status = 400 ∧
    (handleGenerateV2 env sv av idc address styleId).effects = [] ∧
    (handleGenerateV2 env sv av idc address styleId).streetCache = sv ∧
    (handleGenerateV2 env sv av idc address styleId).aerialCache = av ∧
    (handleGenerateV2 env sv av idc address styleId).identityCache = idc := by
  unfold handleGenerateV2
  rw [h]
  exact ⟨rfl, rfl, rfl, rfl, rfl⟩

/-- Witness for C2: `"watercolor"` is not in the registry. -/
theorem style_allowlist_closure_witness :
    (handleGenerateV2 demoEnv demoCache demoCache demoCache (some demoAddr)
        "watercolor").resp.status = 400 ∧
    (handleGenerateV2 demoEnv demoCache demoCache demoCache (some demoAddr)
        "watercolor").effects = [] ∧
    (handleGenerateV2 demoEnv demoCache demoCache demoCache (some demoAddr)
        "watercolor").streetCache = demoCache ∧
    (handleGenerateV2 demoEnv demoCache demoCache demoCache (some demoAddr)
        "watercolor").aerialCache = demoCache ∧
    (handleGenerateV2 demoEnv demoCache demoCache demoCache (some demoAddr)
        "watercolor").identityCache = demoCache :=
  style_allowlist_closure demoEnv demoCache demoCache demoCache (some demoAddr)
    "watercolor" (by decide)

/-! ### Claim C4: privacy-blur handling in the v2 pipeline -/

/-- Claim C4 counterexample: a `/api/generate-v2` request whose extracted
identity text matches the source's own blur-indicator list (it contains
both "privacy blur" and "impossible to determine") is not routed to the
famous-home fallback: synthesis is invoked and the normal success response
is returned, with no `blurredAddress` flag and no `fallbackHome`.  The
blur scan exists only in the legacy `/api/generate` pipeline. -/
theorem v2_blur_not_detected :
    isBlurredText "Due to privacy blur it is impossible to determine the structure." = true ∧
    (handleGenerateV2 demoEnv demoCache demoCache demoCache (some demoAddr)
        "diorama").resp.status = 200 ∧
    (handleGenerateV2 demoEnv demoCache demoCache demoCache (some demoAddr)
        "diorama").resp.success = true ∧
    (handleGenerateV2 demoEnv demoCache demoCache demoCache (some demoAddr)
        "diorama").resp.identity =
      some "Due to privacy blur it is impossible to determine the structure." ∧
    (handleGenerateV2 demoEnv demoCache demoCache demoCache (some demoAddr)
        "diorama").resp.blurredAddress = none ∧
    (handleGenerateV2 demoEnv demoCache demoCache demoCache (some demoAddr)
        "diorama").resp.fallbackHome = none ∧
    (handleGenerateV2 demoEnv demoCache demoCache demoCache (some demoAddr)
        "diorama").resp.model = some "gemini-2.5-flash-image" ∧
    Effect.synthPrimaryCall ∈
      (handleGenerateV2 demoEnv demoCache demoCache demoCache (some demoAddr)
        "diorama").effects :=
  ⟨by decide, by decide, by decide, by decide, by decide, by decide, by decide,
    by decide⟩

/-- Claim C4 amended: the strictly rate-limited `/api/generate-v2` pipeline
performs no privacy-blur detection at all — no response it produces ever
carries the `blurredAddress` flag, and the only fallback responses it
produces are the missing-coverage ones (`noStreetView:true`); extracted
text containing blur phrases proceeds to identity-based synthesis
unchanged.  (The blur scan with the `blurredAddress` flag exists only in
the legacy, non-strictly-limited `/api/generate` pipeline, lines
2124-2157.) -/
theorem v2_never_blurredAddress (env : V2Env) (sv av idc : SimpleCache)
    (address : Option String) (styleId : String) :
    (handleGenerateV2 env sv av idc address styleId).resp.blurredAddress = none ∧
    ((handleGenerateV2 env sv av idc address styleId).resp.model = some "fallback" →
      (handleGenerateV2 env sv av idc address styleId).resp.noStreetView = some true) := by
  unfold handleGenerateV2
  dsimp only
  constructor
  · repeat' split
    all_goals first
      | rfl
      | apply coverageFallbackOut_blurredAddress
      | apply v2AfterCoverage_blurredAddress
  · repeat' split
    all_goals first
      | intro h
        exact coverageFallbackOut_noStreetView _ _ _ _ _ _
      | intro h
        exact absurd h (by simp [v2Err500])
      | intro h
        exact absurd h (v2AfterCoverage_no_fallback_model _ _ _ _ _ _)
      | intro h
        exact absurd h (by simp)

/-! ### Claim C5: determinism of the fallback selection -/

/-- Claim C5 counterexample: two runs of the pipeline for the same address,
the same `styleId` and the same catalog/filesystem contents, differing only
in the `Math.random()` draw, substitute different famous homes — the
selection is random, not deterministic. -/
theorem fallback_selection_random :
    (handleGenerateV2 demoEnvNoCoverage demoCache demoCache demoCache
        (some demoAddr) "diorama").resp.fallbackHome =
      some ⟨"home-alone", "Home Alone House", "Winnetka, IL"⟩ ∧
    (handleGenerateV2 demoEnvNoCoverage₂ demoCache demoCache demoCache
        (some demoAddr) "diorama").resp.fallbackHome =
      some ⟨"fresh-prince", "Fresh Prince Mansion", "Los Angeles, CA"⟩ ∧
    demoEnvNoCoverage₂ = { demoEnvNoCoverage with randomDraw := ⟨1, by decide⟩ } :=
  ⟨by decide, by decide, rfl⟩

/-- Claim C5 amended: the substitute selection is deterministic only given
the random draw — two coverage-absent runs with the same address, `styleId`,
catalog/filesystem contents and the same `Math.random()` draw substitute
the same home (whatever their caches, vision or synthesis outcomes), and
both responses flag the substitution identically. -/
theorem fallback_deterministic_given_draw
    (env₁ env₂ : V2Env) (sv₁ av₁ idc₁ sv₂ av₂ idc₂ : SimpleCache)
    (address : Option String) (styleId s st₁ st₂ : String)
    (hvalid : isValidStyleId styleId = true)
    (hsan : sanitizeReq address = some s)
    (hkey₁ : env₁.hasMapsKey = true) (hkey₂ : env₂.hasMapsKey = true)
    (hmeta₁ : env₁.metadata = .ok st₁) (hmeta₂ : env₂.metadata = .ok st₂)
    (hnok₁ : st₁ ≠ "OK") (hnok₂ : st₂ ≠ "OK")
    (hdraw : env₁.randomDraw = env₂.randomDraw)
    (hfs : env₁.fsExists = env₂.fsExists) :
    (handleGenerateV2 env₁ sv₁ av₁ idc₁ address styleId).resp.fallbackHome =
      (handleGenerateV2 env₂ sv₂ av₂ idc₂ address styleId).resp.fallbackHome ∧
    (handleGenerateV2 env₁ sv₁ av₁ idc₁ address styleId).resp.noStreetView =
      (handleGenerateV2 env₂ sv₂ av₂ idc₂ address styleId).resp.noStreetView := by
  rw [handleGenerateV2_coverage_absent env₁ sv₁ av₁ idc₁ address styleId s st₁
      hvalid hsan hkey₁ hmeta₁ hnok₁,
    handleGenerateV2_coverage_absent env₂ sv₂ av₂ idc₂ address styleId s st₂
      hvalid hsan hkey₂ hmeta₂ hnok₂]
  constructor
  · rw [coverageFallbackOut_fallbackHome, coverageFallbackOut_fallbackHome,
      hfs, hdraw]
  · rw [coverageFallbackOut_noStreetView, coverageFallbackOut_noStreetView]

/-- Witness for the amended C5: two runs with the same draw but different
caches and synthesis outcomes agree on the substituted home. -/
theorem fallback_deterministic_given_draw_witness :
    (handleGenerateV2 demoEnvNoCoverage demoCache demoCache demoCache
        (some demoAddr) "diorama").resp.fallbackHome =
      (handleGenerateV2 demoEnvNoCoverage (demoCache.set "k" "v" 0) demoCache
        demoCache (some demoAddr) "diorama").resp.fallbackHome ∧
    (handleGenerateV2 demoEnvNoCoverage demoCache demoCache demoCache
        (some demoAddr) "diorama").resp.noStreetView =
      (handleGenerateV2 demoEnvNoCoverage (demoCache.set "k" "v" 0) demoCache
        demoCache (some demoAddr) "diorama").resp.noStreetView :=
  fallback_deterministic_given_draw demoEnvNoCoverage demoEnvNoCoverage
    demoCache demoCache demoCache (demoCache.set "k" "v" 0) demoCache demoCache
    (some demoAddr) "diorama" demoAddr "ZERO_RESULTS" "ZERO_RESULTS"
    (by decide) (by decide) rfl rfl rfl rfl (by decide) (by decide) rfl rfl

/-! ### Claim C9: shape of the no-coverage response -/

/-- Claim C9 counterexample: coverage is absent, the catalog does hold an
image for the requested style (`home-alone-diorama.png` exists), yet the
endpoint responds 400 with no `fallbackHome`, because the random draw
picked a home (`fresh-prince`) that has neither the requested style nor a
diorama image.  The 400 branch is decided per randomly-drawn home, not by
whether the catalog as a whole has an entry for the style. -/
theorem coverage_fallback_shape_cex :
    demoEnvSparseAssets.fsExists (assetPath "home-alone-diorama.png") = true ∧
    (handleGenerateV2 demoEnvSparseAssets demoCache demoCache demoCache
        (some demoAddr) "diorama").resp.status = 400 ∧
    (handleGenerateV2 demoEnvSparseAssets demoCache demoCache demoCache
        (some demoAddr) "diorama").resp.noStreetView = some true ∧
    (handleGenerateV2 demoEnvSparseAssets demoCache demoCache demoCache
        (some demoAddr) "diorama").resp.fallbackHome = none :=
  ⟨by decide, by decide, by decide, by decide⟩

/-- Claim C9 amended: when coverage is absent for a validated request, the
response always includes `noStreetView:true`; it includes a non-null
`fallbackHome` with `success:true` (status 200) exactly when the
famous-home lookup for the randomly drawn home succeeds — the drawn home
has an image in the requested style or a diorama fallback image — and
otherwise the endpoint responds 400 (even if some other catalog home has
the style). -/
theorem coverage_fallback_shape (env : V2Env) (sv av idc : SimpleCache)
    (address : Option String) (styleId s st : String)
    (hvalid : isValidStyleId styleId = true)
    (hsan : sanitizeReq address = some s)
    (hkey : env.hasMapsKey = true)
    (hmeta : env.metadata = .ok st)
    (hnok : st ≠ "OK") :
    (handleGenerateV2 env sv av idc address styleId).resp.noStreetView = some true ∧
    (∀ fb, getRandomFamousHomeFallback env.fsExists env.randomDraw styleId = some fb →
      (handleGenerateV2 env sv av idc address styleId).resp.status = 200 ∧
      (handleGenerateV2 env sv av idc address styleId).resp.success = true ∧
      (handleGenerateV2 env sv av idc address styleId).resp.fallbackHome = some fb.home) ∧
    (getRandomFamousHomeFallback env.fsExists env.randomDraw styleId = none →
      (handleGenerateV2 env sv av idc address styleId).resp.status = 400 ∧
      (handleGenerateV2 env sv av idc address styleId).resp.fallbackHome = none) := by
  rw [handleGenerateV2_coverage_absent env sv av idc address styleId s st
    hvalid hsan hkey hmeta hnok]
  exact ⟨coverageFallbackOut_noStreetView _ _ _ _ _ _,
    fun fb hfb => coverageFallbackOut_lookup_some hfb,
    fun hn => coverageFallbackOut_lookup_none hn⟩

/-- Witness for the amended C9 at a concrete no-coverage request. -/
theorem coverage_fallback_shape_witness :
    (handleGenerateV2 demoEnvNoCoverage demoCache demoCache demoCache
        (some demoAddr) "diorama").resp.noStreetView = some true ∧
    (∀ fb, getRandomFamousHomeFallback demoEnvNoCoverage.fsExists
        demoEnvNoCoverage.randomDraw "diorama" = some fb →
      (handleGenerateV2 demoEnvNoCoverage demoCache demoCache demoCache
        (some demoAddr) "diorama").resp.status = 200 ∧
      (handleGenerateV2 demoEnvNoCoverage demoCache demoCache demoCache
        (some demoAddr) "diorama").resp.success = true ∧
      (handleGenerateV2 demoEnvNoCoverage demoCache demoCache demoCache
        (some demoAddr) "diorama").resp.fallbackHome = some fb.home) ∧
    (getRandomFamousHomeFallback demoEnvNoCoverage.fsExists
        demoEnvNoCoverage.randomDraw "diorama" = none →
      (handleGenerateV2 demoEnvNoCoverage demoCache demoCache demoCache
        (some demoAddr) "diorama").resp.status = 400 ∧
      (handleGenerateV2 demoEnvNoCoverage demoCache demoCache demoCache
        (some demoAddr) "diorama").resp.fallbackHome = none) :=
  coverage_fallback_shape demoEnvNoCoverage demoCache demoCache demoCache
    (some demoAddr) "diorama" demoAddr "ZERO_RESULTS"
    (by decide) (by decide) rfl rfl (by decide)

end Diorama
